import Mathlib

/-!
Shallow embedding of the planner/executor core of the Terminal Coding Agent
(`src/api.ts`).  Pure functions are translated directly; the effectful
executor is modelled by explicit environment passing plus an event trace;
the JavaScript runtime primitives the code leans on (`String.prototype.trim`,
`split`, `includes`, `JSON.parse`, `JSON.stringify`) are modelled by
executable Lean functions over lists of characters.
-/

namespace TCA

/-- Left brace character, written via its code point. -/
def lbrace : Char := Char.ofNat 123

/-- Right brace character, written via its code point. -/
def rbrace : Char := Char.ofNat 125

/-- Backtick character, written via its code point. -/
def btick : Char := Char.ofNat 96

/-- JavaScript whitespace class (the ASCII members of `\s`, which is what
`trim` and the `[\s,.-]` split class use on the inputs this program sees). -/
def isJsWs (c : Char) : Bool :=
  c = ' ' || c = '\t' || c = '\n' || c = '\r' || c = Char.ofNat 11 || c = Char.ofNat 12

/-- Model of `String.prototype.trim`: drop whitespace from both ends. -/
def jsTrimL (l : List Char) : List Char :=
  ((l.dropWhile isJsWs).reverse.dropWhile isJsWs).reverse

/-- Model of `String.prototype.trim` on `String`. -/
def jsTrim (s : String) : String := String.mk (jsTrimL s.data)

/-- Does the list begin with the given pattern? -/
def beginsWith : List Char → List Char → Bool
  | _, [] => true
  | [], _ :: _ => false
  | c :: cs, p :: ps => c = p && beginsWith cs ps

/-- Does the pattern occur as a contiguous run somewhere in the list? -/
def containsL : List Char → List Char → Bool
  | [], pat => pat.isEmpty
  | c :: cs, pat => beginsWith (c :: cs) pat || containsL cs pat

/-- Model of `String.prototype.includes`: substring containment
(empty needle always matches, as in JavaScript). -/
def jsIncludes (s sub : String) : Bool := containsL s.data sub.data

/-- Model of `String.prototype.toLowerCase` (ASCII case folding, which is
all the trigger words and keywords exercise). -/
def jsToLower (s : String) : String := String.mk (s.data.map Char.toLower)

/-- Delimiter class of the split in `extractKeywords` (`[\s,.-]`). -/
def isDelim (c : Char) : Bool := isJsWs c || c = ',' || c = '.' || c = '-'

/-- The stop-word set of `extractKeywords` (`commonWords` in `src/api.ts`),
copied verbatim including the duplicate entries the source array holds. -/
def commonWords : List String :=
  ["the", "a", "an", "and", "or", "but", "in", "on", "at", "to", "for", "of", "with", "by",
   "is", "are", "was", "were", "be", "been", "have", "has", "had", "do", "does", "did",
   "will", "would", "could", "should", "may", "might", "can", "must", "shall",
   "this", "that", "these", "those", "i", "you", "he", "she", "it", "we", "they",
   "me", "him", "her", "us", "them", "my", "your", "his", "her", "its", "our", "their"]

/-- `extractKeywords` from `src/api.ts`: lowercase, split on runs of
whitespace/comma/period/hyphen, keep tokens of length above 2 that are not
stop words, take the first 10.  `List.splitOnP` splits at every delimiter
character where the JavaScript regex collapses runs; the two differ only in
empty tokens, which the length filter removes. -/
def extractKeywords (input : String) : List String :=
  (((((jsToLower input).data.splitOnP isDelim).map String.mk).filter
      (fun w => decide (2 < w.length) && !commonWords.contains w)).take 10)

/-- `filterRelevantFiles` from `src/api.ts`: referenced files first in given
order, then every not-yet-referenced file whose lowercased path contains some
keyword, scanned in the given order; truncated to 20 entries.  The source
builds the same sequence with a push loop and `slice(0, 20)`. -/
def filterRelevantFiles (userInput : String)
    (referencedFiles allFiles : List String) : List String :=
  let keywords := extractKeywords userInput
  let extras := allFiles.filter (fun file =>
    !referencedFiles.contains file &&
      keywords.any (fun keyword => jsIncludes (jsToLower file) (jsToLower keyword)))
  (referencedFiles ++ extras).take 20

/-- `extractIntent` from `src/api.ts`: the literal if/else chain over
lowercased substring tests. -/
def extractIntent (input : String) : String :=
  let lowerInput := jsToLower input
  if jsIncludes lowerInput "add" || jsIncludes lowerInput "create" || jsIncludes lowerInput "new" then
    "Create/Add new functionality"
  else if jsIncludes lowerInput "modify" || jsIncludes lowerInput "change" || jsIncludes lowerInput "update" then
    "Modify existing functionality"
  else if jsIncludes lowerInput "fix" || jsIncludes lowerInput "bug" || jsIncludes lowerInput "error" then
    "Fix bugs or errors"
  else if jsIncludes lowerInput "remove" || jsIncludes lowerInput "delete" || jsIncludes lowerInput "clean" then
    "Remove/Delete functionality"
  else if jsIncludes lowerInput "refactor" || jsIncludes lowerInput "improve" || jsIncludes lowerInput "optimize" then
    "Refactor/Improve code"
  else if jsIncludes lowerInput "test" || jsIncludes lowerInput "testing" then
    "Add or modify tests"
  else if jsIncludes lowerInput "document" || jsIncludes lowerInput "comment" || jsIncludes lowerInput "readme" then
    "Add or update documentation"
  else
    "General code changes"

/-- The fixed ordered trigger-word groups of the spec's intent classifier,
first group to match wins. -/
def intentGroups : List (List String × String) :=
  [(["add", "create", "new"], "Create/Add new functionality"),
   (["modify", "change", "update"], "Modify existing functionality"),
   (["fix", "bug", "error"], "Fix bugs or errors"),
   (["remove", "delete", "clean"], "Remove/Delete functionality"),
   (["refactor", "improve", "optimize"], "Refactor/Improve code"),
   (["test", "testing"], "Add or modify tests"),
   (["document", "comment", "readme"], "Add or update documentation")]

/-- Spec-shaped classifier: label of the first trigger-word group with a hit,
fallback label when none match (written from the spec's words, to be
compared with `extractIntent`). -/
def classifyIntentSpec (input : String) : String :=
  match intentGroups.find? (fun g => g.1.any (fun w => jsIncludes (jsToLower input) w)) with
  | some g => g.2
  | none => "General code changes"

/-- Word-character class of the regex `\w` (letters, digits, underscore). -/
def isWordChar (c : Char) : Bool :=
  ('a' ≤ c && c ≤ 'z') || ('A' ≤ c && c ≤ 'Z') || ('0' ≤ c && c ≤ '9') || c = '_'

/-- Anchored replacement of the opening fence, the regex
replace of a leading triple backtick, optional word characters, then a
newline; when the pattern does not match the list is returned unchanged. -/
def stripOpenFence (l : List Char) : List Char :=
  match l with
  | a :: b :: c :: rest =>
    if a = btick && b = btick && c = btick then
      match rest.dropWhile isWordChar with
      | '\n' :: tl => tl
      | _ => l
    else l
  | _ => l

/-- Anchored replacement of the closing fence: drop a trailing
newline-plus-triple-backtick when present, else return unchanged. -/
def stripCloseFence (l : List Char) : List Char :=
  if l.reverse.take 4 = [btick, btick, btick, '\n'] then l.dropLast.dropLast.dropLast.dropLast else l

/-- The content cleanup shared by `createFile` and `modifyFile` in
`src/api.ts`: trim the model output, and when the trimmed text starts with a
triple backtick strip the opening and closing fences. -/
def cleanContent (content : String) : String :=
  let t := jsTrimL content.data
  if t.take 3 = [btick, btick, btick] then
    String.mk (stripCloseFence (stripOpenFence t))
  else
    String.mk t

/-- `PlanStep` from `src/api.ts` (the `files` field is optional there). -/
structure PlanStep where
  step : Int
  action : String
  description : String
  files : Option (List String)
  reasoning : String

/-- `ExecutionPlan` from `src/api.ts`.  `estimatedComplexity` travels as a
plain string on the JSON wire, so it is a string here. -/
structure ExecutionPlan where
  summary : String
  steps : List PlanStep
  estimatedComplexity : String
  prerequisites : List String
  risks : List String

/-- The record `executePlan` returns: `{ totalSteps, successCount, failedSteps }`. -/
structure ExecResult where
  totalSteps : Nat
  successCount : Nat
  failedSteps : List Int
  deriving DecidableEq

/-- Result of `executeStep`: `{ success, message }`. -/
structure StepResult where
  success : Bool
  message : String
  deriving DecidableEq

/-- Observable events of one execution.  A `created`/`modified` event is
emitted exactly when `createFile`/`modifyFile` is entered, i.e. when the LLM
client is called and the file written; `stepStarted` marks the entry of
`executeStep` for a step. -/
inductive TraceEv where
  | stepStarted (n : Int)
  | created (path : String)
  | modified (path : String)
  deriving DecidableEq

/-- Environment of the executor: which paths exist on disk, and the outcome
(normal return, or thrown error message) of `modifyFile`/`createFile` on a
path.  This models the filesystem plus the LLM client the two functions
consume. -/
structure ExecEnv where
  fileExists : String → Bool
  modifyResult : String → Except String Unit
  createResult : String → Except String Unit

/-- The per-file loop of `executeStep`: each file is dispatched on existence
to modify or create; a thrown error stops the loop and is reported. -/
def processFiles (env : ExecEnv) (root : String) : List String → List TraceEv × Option String
  | [] => ([], none)
  | f :: rest =>
    let full := root ++ "/" ++ f
    if env.fileExists full then
      match env.modifyResult full with
      | .ok _ =>
        let r := processFiles env root rest
        (.modified full :: r.1, r.2)
      | .error m => ([.modified full], some m)
    else
      match env.createResult full with
      | .ok _ =>
        let r := processFiles env root rest
        (.created full :: r.1, r.2)
      | .error m => ([.created full], some m)

/-- The success result `executeStep` returns for a step with no files. -/
def noFilesResult : StepResult :=
  { success := true, message := "No files to modify (documentation or verification step)" }

/-- `executeStep` from `src/api.ts`, with its observable trace.  A step
without files succeeds immediately; otherwise every file is processed in
order and the first thrown error becomes the step's failure message. -/
def executeStep (env : ExecEnv) (root : String) (s : PlanStep) : StepResult × List TraceEv :=
  match s.files with
  | none => (noFilesResult, [.stepStarted s.step])
  | some fs =>
    if fs.length = 0 then (noFilesResult, [.stepStarted s.step])
    else
      let r := processFiles env root fs
      match r.2 with
      | none => ({ success := true, message := "Successfully completed: " ++ s.action },
                 .stepStarted s.step :: r.1)
      | some m => ({ success := false, message := m }, .stepStarted s.step :: r.1)

/-- The step loop of `executePlan`: accumulate the result record; on failure
push the step's own `step` number and, unless `continueOnError`, stop. -/
def execGo (env : ExecEnv) (root : String) (continueOnError : Bool) :
    List PlanStep → ExecResult → ExecResult × List TraceEv
  | [], acc => (acc, [])
  | s :: rest, acc =>
    let r := executeStep env root s
    if r.1.success then
      let k := execGo env root continueOnError rest
        { acc with successCount := acc.successCount + 1 }
      (k.1, r.2 ++ k.2)
    else if continueOnError then
      let k := execGo env root continueOnError rest
        { acc with failedSteps := acc.failedSteps ++ [s.step] }
      (k.1, r.2 ++ k.2)
    else
      ({ acc with failedSteps := acc.failedSteps ++ [s.step] }, r.2)

/-- `executePlan` from `src/api.ts`: run the steps in order starting from
`{ totalSteps := plan.steps.length, successCount := 0, failedSteps := [] }`. -/
def executePlan (env : ExecEnv) (root : String) (plan : ExecutionPlan)
    (continueOnError : Bool) : ExecResult × List TraceEv :=
  execGo env root continueOnError plan.steps
    { totalSteps := plan.steps.length, successCount := 0, failedSteps := [] }

/-- Error taxonomy of the LLM client, one constructor per throw site of
`callOpenRouter`: the missing-credential check (config), the caught network
failure (transport), and the non-2xx / missing-text throws (protocol). -/
inductive CallError where
  | config (msg : String)
  | transport (msg : String)
  | protocol (msg : String)
  deriving DecidableEq

/-- Outcome of the single `fetch` in `callOpenRouter`: either the network
call itself fails, or a response arrives with a status, a body text and the
optional `candidates[0].content.parts[0].text` field. -/
inductive FetchOutcome where
  | networkFailure (msg : String)
  | response (status : Nat) (body : String) (text : Option String)

/-- `callOpenRouter` from `src/api.ts` as a function of its credential and
the fetch outcome.  The credential check precedes the try block, so its
error is not wrapped; every error thrown inside the try block is re-thrown
with the `Failed to call Gemini API:` wrapper.  `response.ok` is status
200-299; the extracted text is also rejected when empty, because the source
tests JavaScript truthiness. -/
def callOpenRouter (apiKey : Option String) (outcome : FetchOutcome) : Except CallError String :=
  match apiKey with
  | none => .error (.config "GEMINI_API_KEY environment variable is not set")
  | some _ =>
    match outcome with
    | .networkFailure m => .error (.transport ("Failed to call Gemini API: " ++ m))
    | .response status body text =>
      if 200 ≤ status && status ≤ 299 then
        match text with
        | some t =>
          if t = "" then
            .error (.protocol "Failed to call Gemini API: No content in Gemini response")
          else .ok t
        | none => .error (.protocol "Failed to call Gemini API: No content in Gemini response")
      else
        .error (.protocol ("Failed to call Gemini API: Gemini API request failed (" ++
          toString status ++ "): " ++ body))

/-- An environment in which every path is absent and every operation
succeeds (used to instantiate theorems at concrete inputs). -/
def sampleEnv : ExecEnv :=
  { fileExists := fun _ => false
    modifyResult := fun _ => Except.ok ()
    createResult := fun _ => Except.ok () }

/-- An environment in which creating the path `r/f2` throws `boom` and
everything else succeeds. -/
def sampleFailEnv : ExecEnv :=
  { fileExists := fun _ => false
    modifyResult := fun _ => Except.ok ()
    createResult := fun p => if p = "r/f2" then Except.error "boom" else Except.ok () }

/-- A file-less step numbered 1. -/
def sampleStep1 : PlanStep := { step := 1, action := "a1", description := "d1", files := none, reasoning := "r1" }

/-- A step numbered 2 touching the single file `f2`. -/
def sampleStep2 : PlanStep := { step := 2, action := "a2", description := "d2", files := some ["f2"], reasoning := "r2" }

/-- A file-less step numbered 3. -/
def sampleStep3 : PlanStep := { step := 3, action := "a3", description := "d3", files := none, reasoning := "r3" }

/-- A three-step plan whose second step touches `f2`. -/
def samplePlan3 : ExecutionPlan :=
  { summary := "s", steps := [sampleStep1, sampleStep2, sampleStep3],
    estimatedComplexity := "low", prerequisites := [], risks := [] }

/-- A plan with no steps at all. -/
def samplePlan0 : ExecutionPlan :=
  { summary := "s", steps := [], estimatedComplexity := "low", prerequisites := [], risks := [] }

/-- JSON values.  Numbers are kept syntactically as `mantissa * 10 ^ exp`
(integers have exponent 0); this avoids floating-point rounding, which no
claim exercises. -/
inductive Json where
  | null
  | bool (b : Bool)
  | num (m : Int) (e : Int)
  | str (s : String)
  | arr (elems : List Json)
  | obj (members : List (String × Json))

/-- JavaScript truthiness of a JSON value (`!plan.summary` etc.). -/
def truthy : Json → Bool
  | Json.null => false
  | Json.bool b => b
  | Json.num m _ => decide (m ≠ 0)
  | Json.str s => decide (s ≠ "")
  | Json.arr _ => true
  | Json.obj _ => true

/-- Truthiness of an optional field (`undefined` is falsy). -/
def truthyO : Option Json → Bool
  | none => false
  | some j => truthy j

/-- `Array.isArray` on an optional field. -/
def isArrO : Option Json → Bool
  | some (Json.arr _) => true
  | _ => false

/-- Property access `j[key]` on a parsed JSON value: objects answer with
their last binding for the key (duplicate keys overwrite, as in
JavaScript), everything else with `undefined`. -/
def getField (j : Json) (key : String) : Option Json :=
  match j with
  | Json.obj members =>
    members.foldl (fun acc kv => if kv.1 = key then some kv.2 else acc) none
  | _ => none

/-- JSON whitespace (the only characters `JSON.parse` skips). -/
def isJsonWs (c : Char) : Bool := c = ' ' || c = '\t' || c = '\n' || c = '\r'

/-- Skip JSON whitespace. -/
def skipWs (l : List Char) : List Char := l.dropWhile isJsonWs

/-- Decimal digit test by code point. -/
def isDigitC (c : Char) : Bool := 48 ≤ c.toNat && c.toNat ≤ 57

/-- Value of a decimal digit character. -/
def digitVal (c : Char) : Nat := c.toNat - 48

/-- Value of a list of decimal digit characters. -/
def digitsToNat (ds : List Char) : Nat := ds.foldl (fun a c => a * 10 + digitVal c) 0

/-- Value of a hexadecimal digit character, if it is one. -/
def hexDigitVal (c : Char) : Option Nat :=
  if 48 ≤ c.toNat && c.toNat ≤ 57 then some (c.toNat - 48)
  else if 97 ≤ c.toNat && c.toNat ≤ 102 then some (c.toNat - 87)
  else if 65 ≤ c.toNat && c.toNat ≤ 70 then some (c.toNat - 55)
  else none

/-- Single-character JSON string escapes. -/
def escChar (e : Char) : Option Char :=
  if e = '"' then some '"'
  else if e = '\\' then some '\\'
  else if e = '/' then some '/'
  else if e = 'b' then some (Char.ofNat 8)
  else if e = 'f' then some (Char.ofNat 12)
  else if e = 'n' then some '\n'
  else if e = 'r' then some '\r'
  else if e = 't' then some '\t'
  else none

/-- Read four hexadecimal digits. -/
def hex4 (l : List Char) : Option (Nat × List Char) :=
  match l with
  | a :: b :: c :: d :: rest =>
    (match hexDigitVal a, hexDigitVal b, hexDigitVal c, hexDigitVal d with
     | some va, some vb, some vc, some vd =>
       some (va * 4096 + vb * 256 + vc * 16 + vd, rest)
     | _, _, _, _ => none)
  | _ => none

/-- Decode one `\u` escape (the input starts after the `u`), combining a
surrogate pair into one character and rejecting lone surrogates. -/
def parseU (l : List Char) : Option (Char × List Char) :=
  match hex4 l with
  | none => none
  | some (v, rest) =>
    if 55296 ≤ v && v ≤ 56319 then
      match rest with
      | f :: g :: rest2 =>
        if f = '\\' && g = 'u' then
          (match hex4 rest2 with
           | some (w, rest3) =>
             if 56320 ≤ w && w ≤ 57343 then
               some (Char.ofNat (65536 + (v - 55296) * 1024 + (w - 56320)), rest3)
             else none
           | none => none)
        else none
      | _ => none
    else if 56320 ≤ v && v ≤ 57343 then none
    else some (Char.ofNat v, rest)

/-- Fuel-driven body of the string parser: each step decodes one character
(or finds the closing quote), so fuel bounded by the character count
suffices. -/
def parseStringBodyF : Nat → List Char → Option (List Char × List Char)
  | 0, _ => none
  | _ + 1, [] => none
  | fuel + 1, c :: rest =>
    if c = '"' then some ([], rest)
    else if c = '\\' then
      match rest with
      | [] => none
      | e :: rest2 =>
        if e = 'u' then
          (match parseU rest2 with
           | some (ch, rest3) =>
             (parseStringBodyF fuel rest3).map (fun pr => (ch :: pr.1, pr.2))
           | none => none)
        else
          (match escChar e with
           | some ch => (parseStringBodyF fuel rest2).map (fun pr => (ch :: pr.1, pr.2))
           | none => none)
    else if c.toNat < 32 then none
    else (parseStringBodyF fuel rest).map (fun pr => (c :: pr.1, pr.2))

/-- Parse the body of a JSON string after the opening quote, returning the
decoded characters and the input after the closing quote.  Unescaped
control characters are rejected; `\u` escapes combine surrogate pairs and
reject lone surrogates (which Lean characters cannot carry). -/
def parseStringBody (l : List Char) : Option (List Char × List Char) :=
  parseStringBodyF (l.length + 1) l

/-- Parse the optional exponent tail of a JSON number. -/
def parseExpTail (m : Int) (e0 : Int) (l : List Char) : Option ((Int × Int) × List Char) :=
  let sg : Int × List Char :=
    match l with
    | c :: t => if c = '+' then (1, t) else if c = '-' then (-1, t) else (1, c :: t)
    | [] => (1, [])
  let ds := sg.2.takeWhile isDigitC
  let r := sg.2.dropWhile isDigitC
  if ds.isEmpty then none
  else some ((m, e0 + sg.1 * (digitsToNat ds : Int)), r)

/-- Parse what may follow the integral/fractional digits of a number. -/
def parseExp (m : Int) (e0 : Int) (l : List Char) : Option ((Int × Int) × List Char) :=
  match l with
  | c :: t => if c = 'e' || c = 'E' then parseExpTail m e0 t else some ((m, e0), c :: t)
  | [] => some ((m, e0), [])

/-- Parse a JSON number (sign, integral part without leading zeros,
optional fraction, optional exponent), as mantissa and exponent. -/
def parseNumber (l : List Char) : Option ((Int × Int) × List Char) :=
  let sn : Bool × List Char :=
    match l with
    | c :: t => if c = '-' then (true, t) else (false, c :: t)
    | [] => (false, [])
  let ds := sn.2.takeWhile isDigitC
  let r1 := sn.2.dropWhile isDigitC
  if ds.isEmpty then none
  else if 1 < ds.length && ds.head? = some '0' then none
  else
    let iv : Int := (digitsToNat ds : Nat)
    let m0 : Int := if sn.1 then -iv else iv
    match r1 with
    | c :: t =>
      if c = '.' then
        let fs := t.takeWhile isDigitC
        let r2 := t.dropWhile isDigitC
        if fs.isEmpty then none
        else
          let fv : Int := (digitsToNat fs : Nat)
          let m1 : Int := m0 * (10 : Int) ^ fs.length + (if sn.1 then -fv else fv)
          parseExp m1 (-(fs.length : Int)) r2
      else parseExp m0 0 (c :: t)
    | [] => parseExp m0 0 []

/-- A list that cannot extend a number to its left: its first character is
not a digit, a decimal point, or an exponent marker.  This is the shape of
everything that follows a printed number inside printed JSON. -/
def numOk (l : List Char) : Prop :=
  ∀ c, l.head? = some c → isDigitC c = false ∧ c ≠ '.' ∧ c ≠ 'e' ∧ c ≠ 'E'

/-- The three mutually recursive parsing functions, tied through a fuel
parameter in `jsonP`. -/
structure ParsePack where
  value : List Char → Option (Json × List Char)
  elems : List Char → Option (List Json × List Char)
  members : List Char → Option (List (String × Json) × List Char)

/-- Parse one JSON value (dispatch on the first non-blank character). -/
def pValue (P : ParsePack) (l : List Char) : Option (Json × List Char) :=
  match skipWs l with
  | [] => none
  | c :: rest =>
    if c = '"' then (parseStringBody rest).map (fun pr => (Json.str (String.mk pr.1), pr.2))
    else if c = '[' then
      (match skipWs rest with
       | d :: r2 =>
         if d = ']' then some (Json.arr [], r2)
         else (P.elems rest).map (fun pr => (Json.arr pr.1, pr.2))
       | [] => (P.elems rest).map (fun pr => (Json.arr pr.1, pr.2)))
    else if c = lbrace then
      (match skipWs rest with
       | d :: r2 =>
         if d = rbrace then some (Json.obj [], r2)
         else (P.members rest).map (fun pr => (Json.obj pr.1, pr.2))
       | [] => none)
    else if c = 't' then
      (match rest with
       | 'r' :: 'u' :: 'e' :: r => some (Json.bool true, r)
       | _ => none)
    else if c = 'f' then
      (match rest with
       | 'a' :: 'l' :: 's' :: 'e' :: r => some (Json.bool false, r)
       | _ => none)
    else if c = 'n' then
      (match rest with
       | 'u' :: 'l' :: 'l' :: r => some (Json.null, r)
       | _ => none)
    else (parseNumber (c :: rest)).map (fun pr => (Json.num pr.1.1 pr.1.2, pr.2))

/-- Parse the comma-separated elements of a non-empty array, up to and
including the closing bracket. -/
def pElems (P : ParsePack) (l : List Char) : Option (List Json × List Char) :=
  match P.value l with
  | none => none
  | some (v, r) =>
    match skipWs r with
    | c :: r2 =>
      if c = ',' then (P.elems r2).map (fun pr => (v :: pr.1, pr.2))
      else if c = ']' then some ([v], r2)
      else none
    | [] => none

/-- Parse the members of a non-empty object, up to and including the
closing brace. -/
def pMembers (P : ParsePack) (l : List Char) : Option (List (String × Json) × List Char) :=
  match skipWs l with
  | c :: r =>
    if c = '"' then
      (match parseStringBody r with
       | none => none
       | some (k, r2) =>
         match skipWs r2 with
         | d :: r3 =>
           if d = ':' then
             (match P.value r3 with
              | none => none
              | some (v, r4) =>
                match skipWs r4 with
                | e :: r5 =>
                  if e = ',' then (P.members r5).map (fun pr => ((String.mk k, v) :: pr.1, pr.2))
                  else if e = rbrace then some ([(String.mk k, v)], r5)
                  else none
                | [] => none)
           else none
         | [] => none)
    else none
  | [] => none

/-- The everywhere-failing pack (fuel exhausted). -/
def failPack : ParsePack :=
  { value := fun _ => none, elems := fun _ => none, members := fun _ => none }

/-- Fuel-indexed JSON parser: each call layer costs one unit of fuel. -/
def jsonP : Nat → ParsePack
  | 0 => failPack
  | fuel + 1 =>
    { value := pValue (jsonP fuel)
      elems := pElems (jsonP fuel)
      members := pMembers (jsonP fuel) }

/-- Model of `JSON.parse`: parse one value and require that only
whitespace follows.  Twice the input length plus two is always enough
fuel, because every call layer of the parser consumes at least one
character across two layers. -/
def jsonParse (s : String) : Option Json :=
  match (jsonP (2 * s.data.length + 2)).value s.data with
  | some (v, r) => if (skipWs r).isEmpty then some v else none
  | none => none

/-- The digit character for a value below ten. -/
def digitChar (n : Nat) : Char := Char.ofNat (48 + n)

/-- Digits of a natural number, most significant first (fuel-driven). -/
def natDigitsAux : Nat → Nat → List Char → List Char
  | 0, _, acc => acc
  | fuel + 1, n, acc =>
    if n < 10 then digitChar n :: acc
    else natDigitsAux fuel (n / 10) (digitChar (n % 10) :: acc)

/-- Decimal digits of a natural number. -/
def natDigits (n : Nat) : List Char := natDigitsAux (n + 1) n []

/-- Decimal notation of an integer. -/
def printInt (m : Int) : List Char :=
  if m < 0 then '-' :: natDigits (-m).toNat else natDigits m.toNat

/-- Notation of a model number: plain decimal when the exponent is zero,
exponent notation otherwise. -/
def printNum (m e : Int) : List Char :=
  if e = 0 then printInt m else printInt m ++ 'e' :: printInt e

/-- Lower-case hexadecimal digit, as `JSON.stringify` emits. -/
def hexOutDigit (n : Nat) : Char :=
  if n < 10 then Char.ofNat (48 + n) else Char.ofNat (87 + n)

/-- `JSON.stringify` escaping of one character: quote, backslash and the
named control shortcuts, `\u00..` for other control characters, the
character itself otherwise. -/
def escapeChar (c : Char) : List Char :=
  if c = '"' then ['\\', '"']
  else if c = '\\' then ['\\', '\\']
  else if c = '\n' then ['\\', 'n']
  else if c = '\r' then ['\\', 'r']
  else if c = '\t' then ['\\', 't']
  else if c = Char.ofNat 8 then ['\\', 'b']
  else if c = Char.ofNat 12 then ['\\', 'f']
  else if c.toNat < 32 then
    ['\\', 'u', '0', '0', hexOutDigit (c.toNat / 16), hexOutDigit (c.toNat % 16)]
  else [c]

/-- Escape every character of a string body. -/
def escapeList : List Char → List Char
  | [] => []
  | c :: cs => escapeChar c ++ escapeList cs

/-- `JSON.stringify` of a string. -/
def printString (s : String) : List Char := '"' :: escapeList s.data ++ ['"']

mutual

/-- Compact `JSON.stringify` of a value. -/
def printJson : Json → List Char
  | Json.null => ['n', 'u', 'l', 'l']
  | Json.bool true => ['t', 'r', 'u', 'e']
  | Json.bool false => ['f', 'a', 'l', 's', 'e']
  | Json.num m e => printNum m e
  | Json.str s => printString s
  | Json.arr es => '[' :: (printElems es ++ [']'])
  | Json.obj ms => lbrace :: (printMembers ms ++ [rbrace])

/-- Comma-separated rendering of array elements. -/
def printElems : List Json → List Char
  | [] => []
  | [x] => printJson x
  | x :: y :: t => printJson x ++ ',' :: printElems (y :: t)

/-- Comma-separated rendering of object members. -/
def printMembers : List (String × Json) → List Char
  | [] => []
  | [(k, v)] => printString k ++ ':' :: printJson v
  | (k, v) :: m :: t => printString k ++ ':' :: printJson v ++ ',' :: printMembers (m :: t)

end

/-- `JSON.stringify` as a string-valued function. -/
def jsonStringify (j : Json) : String := String.mk (printJson j)

/-- The span the greedy regex of `parsePlanResponse` extracts: from the
first left brace through the last right brace, when both exist in that
order. -/
def extractJsonSpan (l : List Char) : Option (List Char) :=
  let fromBrace := l.dropWhile (fun c => !(c = lbrace))
  let span := (fromBrace.reverse.dropWhile (fun c => !(c = rbrace))).reverse
  if span.isEmpty then none else some span

/-- `parsePlanResponse` from `src/api.ts`: extract the first-brace to
last-brace span, `JSON.parse` it, reject unless `summary` is truthy and
`steps` is a truthy array; any failure yields `null` (here `none`).  The
result is the parsed JSON value, which the source merely casts. -/
def parsePlanResponse (llmResponse : String) : Option Json :=
  match extractJsonSpan llmResponse.data with
  | none => none
  | some span =>
    match jsonParse (String.mk span) with
    | none => none
    | some plan =>
      if !truthyO (getField plan "summary") || !truthyO (getField plan "steps") ||
          !isArrO (getField plan "steps") then none
      else some plan

/-- Wire-format JSON of one plan step, `files` omitted when absent, in the
schema's key order. -/
def planStepToJson (s : PlanStep) : Json :=
  Json.obj ([("step", Json.num s.step 0), ("action", Json.str s.action),
             ("description", Json.str s.description)] ++
            (match s.files with
             | none => []
             | some fs => [("files", Json.arr (fs.map Json.str))]) ++
            [("reasoning", Json.str s.reasoning)])

/-- Wire-format JSON of a whole plan, in the schema's key order. -/
def planToJson (p : ExecutionPlan) : Json :=
  Json.obj [("summary", Json.str p.summary),
            ("steps", Json.arr (p.steps.map planStepToJson)),
            ("estimatedComplexity", Json.str p.estimatedComplexity),
            ("prerequisites", Json.arr (p.prerequisites.map Json.str)),
            ("risks", Json.arr (p.risks.map Json.str))]

lemma processFiles_trace_shape (env : ExecEnv) (root : String) :
    ∀ (fs : List String) (ev : TraceEv), ev ∈ (processFiles env root fs).1 →
      ∃ p, ev = TraceEv.created p ∨ ev = TraceEv.modified p := by
  intro fs
  induction fs with
  | nil => intro ev h; simp [processFiles] at h
  | cons f rest ih =>
    intro ev h
    rw [processFiles] at h
    split at h
    · split at h
      · rcases List.mem_cons.mp h with h | h
        · exact ⟨root ++ "/" ++ f, Or.inr h⟩
        · exact ih ev h
      · rcases List.mem_singleton.mp h with h
        exact ⟨root ++ "/" ++ f, Or.inr h⟩
    · split at h
      · rcases List.mem_cons.mp h with h | h
        · exact ⟨root ++ "/" ++ f, Or.inl h⟩
        · exact ih ev h
      · rcases List.mem_singleton.mp h with h
        exact ⟨root ++ "/" ++ f, Or.inl h⟩

lemma executeStep_trace_shape (env : ExecEnv) (root : String) (s : PlanStep) (ev : TraceEv)
    (h : ev ∈ (executeStep env root s).2) :
    ev = TraceEv.stepStarted s.step ∨ ∃ p, ev = TraceEv.created p ∨ ev = TraceEv.modified p := by
  rw [executeStep] at h
  rcases hf : s.files with _ | fs
  · rw [hf] at h
    simp at h
    exact Or.inl h
  · rw [hf] at h
    by_cases hl : fs.length = 0
    · simp [hl] at h
      exact Or.inl h
    · simp only [hl, if_neg, if_false] at h
      rcases hr : (processFiles env root fs).2 with _ | m <;> rw [hr] at h <;>
        rcases List.mem_cons.mp h with h | h
      · exact Or.inl h
      · exact Or.inr (processFiles_trace_shape env root fs ev h)
      · exact Or.inl h
      · exact Or.inr (processFiles_trace_shape env root fs ev h)

/-- Claim C4: a step whose `files` field is absent or empty succeeds with the
"no files to modify" message, and its trace holds no file creation, file
modification or LLM call event. -/
theorem executeStep_no_files (env : ExecEnv) (root : String) (s : PlanStep)
    (h : s.files = none ∨ s.files = some []) :
    executeStep env root s =
      ({ success := true,
         message := "No files to modify (documentation or verification step)" },
       [TraceEv.stepStarted s.step]) ∧
    ∀ p, TraceEv.created p ∉ (executeStep env root s).2 ∧
         TraceEv.modified p ∉ (executeStep env root s).2 := by
  have he : executeStep env root s = (noFilesResult, [TraceEv.stepStarted s.step]) := by
    rcases h with h | h <;> simp [executeStep, h]
  refine ⟨he, ?_⟩
  intro p
  rw [he]
  constructor <;> simp

/-- Witness for C4 at a concrete file-less step. -/
theorem executeStep_no_files_witness :
    executeStep sampleEnv "r" sampleStep1 =
      ({ success := true,
         message := "No files to modify (documentation or verification step)" },
       [TraceEv.stepStarted 1]) :=
  (executeStep_no_files sampleEnv "r" sampleStep1 (Or.inl rfl)).1

lemma execGo_invariant (env : ExecEnv) (root : String) (c : Bool) :
    ∀ (steps : List PlanStep) (acc : ExecResult),
      (execGo env root c steps acc).1.totalSteps = acc.totalSteps ∧
      (execGo env root c steps acc).1.successCount +
          (execGo env root c steps acc).1.failedSteps.length ≤
        acc.successCount + acc.failedSteps.length + steps.length ∧
      ∀ n ∈ (execGo env root c steps acc).1.failedSteps,
        n ∈ acc.failedSteps ∨ ∃ s ∈ steps, s.step = n := by
  intro steps
  induction steps with
  | nil => intro acc; simp [execGo]
  | cons s rest ih =>
    intro acc
    by_cases hs : (executeStep env root s).1.success = true
    · have hg : execGo env root c (s :: rest) acc =
          (let k := execGo env root c rest { acc with successCount := acc.successCount + 1 }
           (k.1, (executeStep env root s).2 ++ k.2)) := by
        rw [execGo]; simp [hs]
      rw [hg]
      obtain ⟨ht, hb, hm⟩ := ih { acc with successCount := acc.successCount + 1 }
      refine ⟨ht, by simp at hb ⊢; omega, ?_⟩
      intro n hn
      rcases hm n hn with hm' | ⟨s', hs', he⟩
      · exact Or.inl hm'
      · exact Or.inr ⟨s', List.mem_cons_of_mem _ hs', he⟩
    · rcases hc : c with _ | _ <;> subst hc
      · have hg : execGo env root false (s :: rest) acc =
            ({ acc with failedSteps := acc.failedSteps ++ [s.step] },
             (executeStep env root s).2) := by
          rw [execGo]; simp [hs]
        rw [hg]
        refine ⟨rfl, by simp; omega, ?_⟩
        intro n hn
        simp at hn
        rcases hn with hn | hn
        · exact Or.inl hn
        · exact Or.inr ⟨s, List.mem_cons_self s rest, hn.symm⟩
      · have hg : execGo env root true (s :: rest) acc =
            (let k := execGo env root true rest
               { acc with failedSteps := acc.failedSteps ++ [s.step] }
             (k.1, (executeStep env root s).2 ++ k.2)) := by
          rw [execGo]; simp [hs]
        rw [hg]
        obtain ⟨ht, hb, hm⟩ := ih { acc with failedSteps := acc.failedSteps ++ [s.step] }
        refine ⟨ht, by simp at hb ⊢; omega, ?_⟩
        intro n hn
        rcases hm n hn with hm' | ⟨s', hs', he⟩
        · simp at hm'
          rcases hm' with hm' | hm'
          · exact Or.inl hm'
          · exact Or.inr ⟨s, List.mem_cons_self s rest, hm'.symm⟩
        · exact Or.inr ⟨s', List.mem_cons_of_mem _ hs', he⟩

/-- Claim C3: for every plan and flag, the result satisfies
`successCount + failedSteps.length ≤ totalSteps`, every failed step number
is the `step` field of some step of the plan, and the empty plan yields the
trivial all-success result. -/
theorem executePlan_invariants (env : ExecEnv) (root : String) (plan : ExecutionPlan)
    (c : Bool) :
    (executePlan env root plan c).1.successCount +
        (executePlan env root plan c).1.failedSteps.length ≤
      (executePlan env root plan c).1.totalSteps ∧
    (executePlan env root plan c).1.totalSteps = plan.steps.length ∧
    (∀ n ∈ (executePlan env root plan c).1.failedSteps,
      ∃ s ∈ plan.steps, s.step = n) ∧
    (plan.steps = [] →
      (executePlan env root plan c).1 = { totalSteps := 0, successCount := 0, failedSteps := [] }) := by
  obtain ⟨ht, hb, hm⟩ := execGo_invariant env root c plan.steps
    { totalSteps := plan.steps.length, successCount := 0, failedSteps := [] }
  refine ⟨?_, ht, ?_, ?_⟩
  · rw [executePlan, ht]
    simp at hb ⊢
    omega
  · intro n hn
    rcases hm n hn with hm' | hm'
    · simp at hm'
    · exact hm'
  · intro h0
    rw [executePlan, h0]
    simp [execGo]

/-- Witness for C3 at the empty plan. -/
theorem executePlan_invariants_witness :
    (executePlan sampleEnv "r" samplePlan0 false).1 =
      { totalSteps := 0, successCount := 0, failedSteps := [] } :=
  (executePlan_invariants sampleEnv "r" samplePlan0 false).2.2.2 rfl

/-- Claim C1: on a plan of three steps numbered 1, 2, 3 in which step 2
fails and the others succeed, `executePlan` without `continueOnError`
returns `totalSteps 3, successCount 1, failedSteps [2]`, its trace holds
only events of the first two steps (step 3 is never attempted: no file
processing or LLM call for it), and with `continueOnError` it returns
`totalSteps 3, successCount 2, failedSteps [2]`. -/
theorem executePlan_three_step (env : ExecEnv) (root : String) (plan : ExecutionPlan)
    (s1 s2 s3 : PlanStep) (hp : plan.steps = [s1, s2, s3])
    (h1 : (executeStep env root s1).1.success = true)
    (h2 : (executeStep env root s2).1.success = false)
    (h3 : (executeStep env root s3).1.success = true)
    (n1 : s1.step = 1) (n2 : s2.step = 2) (n3 : s3.step = 3) :
    (executePlan env root plan false).1 =
      { totalSteps := 3, successCount := 1, failedSteps := [2] } ∧
    (executePlan env root plan false).2 =
      (executeStep env root s1).2 ++ (executeStep env root s2).2 ∧
    TraceEv.stepStarted 3 ∉ (executePlan env root plan false).2 ∧
    (executePlan env root plan true).1 =
      { totalSteps := 3, successCount := 2, failedSteps := [2] } := by
  have hfalse : executePlan env root plan false =
      ({ totalSteps := 3, successCount := 1, failedSteps := [2] },
       (executeStep env root s1).2 ++ (executeStep env root s2).2) := by
    rw [executePlan, hp]
    rw [execGo]
    simp only [h1, if_true]
    rw [execGo]
    simp only [h2, Bool.false_eq_true, if_false]
    simp [n2]
  have htrue : executePlan env root plan true =
      ({ totalSteps := 3, successCount := 2, failedSteps := [2] },
       (executeStep env root s1).2 ++ ((executeStep env root s2).2 ++ (executeStep env root s3).2)) := by
    rw [executePlan, hp]
    rw [execGo]
    simp only [h1, if_true]
    rw [execGo]
    simp only [h2, Bool.false_eq_true, if_false, if_true]
    rw [execGo]
    simp only [h3, if_true]
    rw [execGo]
    simp [n2]
  refine ⟨by rw [hfalse], by rw [hfalse], ?_, by rw [htrue]⟩
  rw [hfalse]
  intro hm
  rcases List.mem_append.mp hm with hm | hm
  · rcases executeStep_trace_shape env root s1 _ hm with he | ⟨p, he | he⟩ <;>
      rw [n1] at * <;> simp_all
  · rcases executeStep_trace_shape env root s2 _ hm with he | ⟨p, he | he⟩ <;>
      rw [n2] at * <;> simp_all

/-- Witness for C1: the sample three-step plan under the environment whose
`createFile` throws on `r/f2`. -/
theorem executePlan_three_step_witness :
    (executePlan sampleFailEnv "r" samplePlan3 false).1 =
      { totalSteps := 3, successCount := 1, failedSteps := [2] } ∧
    (executePlan sampleFailEnv "r" samplePlan3 true).1 =
      { totalSteps := 3, successCount := 2, failedSteps := [2] } :=
  ⟨(executePlan_three_step sampleFailEnv "r" samplePlan3 sampleStep1 sampleStep2 sampleStep3
      rfl rfl rfl rfl rfl rfl rfl).1,
   (executePlan_three_step sampleFailEnv "r" samplePlan3 sampleStep1 sampleStep2 sampleStep3
      rfl rfl rfl rfl rfl rfl rfl).2.2.2⟩

/-- Claim C9: the LLM client fails with the config error when no credential
is set, whatever the network would have answered (so before any network
call); with the transport error when the fetch fails; with a protocol error
embedding the upstream status and body on a non-2xx status; and with the
missing-content protocol error when the text field is absent from a 2xx
response. -/
theorem callOpenRouter_errors :
    (∀ outcome, callOpenRouter none outcome =
      Except.error (CallError.config "GEMINI_API_KEY environment variable is not set")) ∧
    (∀ key m, callOpenRouter (some key) (FetchOutcome.networkFailure m) =
      Except.error (CallError.transport ("Failed to call Gemini API: " ++ m))) ∧
    (∀ key status body text, (status < 200 ∨ 299 < status) →
      callOpenRouter (some key) (FetchOutcome.response status body text) =
        Except.error (CallError.protocol
          ("Failed to call Gemini API: Gemini API request failed (" ++
            toString status ++ "): " ++ body))) ∧
    (∀ key status body, 200 ≤ status → status ≤ 299 →
      callOpenRouter (some key) (FetchOutcome.response status body none) =
        Except.error (CallError.protocol "Failed to call Gemini API: No content in Gemini response")) := by
  refine ⟨fun _ => rfl, fun _ _ => rfl, fun key status body text h => ?_, fun key status body h1 h2 => ?_⟩
  · have hc : (decide (200 ≤ status) && decide (status ≤ 299)) = false := by
      rcases h with h | h <;> simp <;> omega
    simp only [callOpenRouter, hc, Bool.false_eq_true, if_false]
  · have hc : (decide (200 ≤ status) && decide (status ≤ 299)) = true := by
      simp [h1, h2]
    simp only [callOpenRouter, hc, if_true]

/-- Witness for C9: a 404 response and a 200 response without text. -/
theorem callOpenRouter_errors_witness :
    callOpenRouter (some "k") (FetchOutcome.response 404 "nf" none) =
      Except.error (CallError.protocol
        ("Failed to call Gemini API: Gemini API request failed (" ++
          toString 404 ++ "): " ++ "nf")) ∧
    callOpenRouter (some "k") (FetchOutcome.response 200 "" none) =
      Except.error (CallError.protocol "Failed to call Gemini API: No content in Gemini response") :=
  ⟨callOpenRouter_errors.2.2.1 "k" 404 "nf" none (Or.inr (by decide)),
   callOpenRouter_errors.2.2.2 "k" 200 "" (by decide) (by decide)⟩

/-- Claim C5: `extractIntent` agrees with the spec's ordered
first-match-wins classifier on every input, and both sample inputs land in
the create group because it precedes the fix group. -/
theorem extractIntent_first_match :
    (∀ input, extractIntent input = classifyIntentSpec input) ∧
    extractIntent "Add a new login page" = "Create/Add new functionality" ∧
    extractIntent "Fix the crash on add" = "Create/Add new functionality" := by
  refine ⟨fun input => ?_, rfl, rfl⟩
  simp only [extractIntent, classifyIntentSpec, intentGroups, List.find?_cons, List.any_cons,
    List.any_nil, Bool.or_false, Bool.or_assoc]
  cases hc1 : jsIncludes (jsToLower input) "add" ||
      (jsIncludes (jsToLower input) "create" || jsIncludes (jsToLower input) "new") with
  | true => rfl
  | false =>
  cases hc2 : jsIncludes (jsToLower input) "modify" ||
      (jsIncludes (jsToLower input) "change" || jsIncludes (jsToLower input) "update") with
  | true => rfl
  | false =>
  cases hc3 : jsIncludes (jsToLower input) "fix" ||
      (jsIncludes (jsToLower input) "bug" || jsIncludes (jsToLower input) "error") with
  | true => rfl
  | false =>
  cases hc4 : jsIncludes (jsToLower input) "remove" ||
      (jsIncludes (jsToLower input) "delete" || jsIncludes (jsToLower input) "clean") with
  | true => rfl
  | false =>
  cases hc5 : jsIncludes (jsToLower input) "refactor" ||
      (jsIncludes (jsToLower input) "improve" || jsIncludes (jsToLower input) "optimize") with
  | true => rfl
  | false =>
  cases hc6 : jsIncludes (jsToLower input) "test" || jsIncludes (jsToLower input) "testing" with
  | true => rfl
  | false =>
  cases hc7 : jsIncludes (jsToLower input) "document" ||
      (jsIncludes (jsToLower input) "comment" || jsIncludes (jsToLower input) "readme") with
  | true => rfl
  | false => rfl

/-- Claim C7: `extractKeywords` yields at most 10 tokens, each longer than
2 characters and outside the stop-word set, and the output is exactly the
first 10 surviving tokens, in order, of the lowercased input split on the
delimiter class. -/
theorem extractKeywords_spec (input : String) :
    (extractKeywords input).length ≤ 10 ∧
    (∀ k ∈ extractKeywords input, 2 < k.length ∧ k ∉ commonWords) ∧
    extractKeywords input =
      (((((jsToLower input).data.splitOnP isDelim).map String.mk).filter
        (fun w => decide (2 < w.length) && !commonWords.contains w)).take 10) := by
  refine ⟨?_, ?_, rfl⟩
  · rw [extractKeywords]
    simp [List.length_take]
  · intro k hk
    rw [extractKeywords] at hk
    have hk' := List.take_subset _ _ hk
    rw [List.mem_filter] at hk'
    obtain ⟨-, hp⟩ := hk'
    rw [Bool.and_eq_true] at hp
    obtain ⟨hlen, hnc⟩ := hp
    refine ⟨by simpa using hlen, ?_⟩
    intro hmem
    rw [Bool.not_eq_true'] at hnc
    have hel : commonWords.elem k = true := List.elem_iff.mpr hmem
    rw [show commonWords.contains k = commonWords.elem k from rfl, hel] at hnc
    cases hnc

/-- Counterexample to C6 as stated: a duplicated entry in `allFiles` (or in
`referencedFiles`) is emitted twice, so the output is not duplicate-free for
every input. -/
theorem filterRelevantFiles_dup_cex :
    filterRelevantFiles "auth stuff" [] ["auth.ts", "auth.ts"] = ["auth.ts", "auth.ts"] ∧
    ¬ (filterRelevantFiles "auth stuff" [] ["auth.ts", "auth.ts"]).Nodup ∧
    filterRelevantFiles "x" ["a.ts", "a.ts"] [] = ["a.ts", "a.ts"] ∧
    ¬ (filterRelevantFiles "x" ["a.ts", "a.ts"] []).Nodup := by
  exact ⟨by decide, by decide, by decide, by decide⟩

/-- Claim C6 (amended): provided `referencedFiles` and `allFiles` are each
duplicate-free, the output of `filterRelevantFiles` is duplicate-free;
it always starts with the (truncated) referenced files in given order,
followed by an in-order selection from `allFiles`, never exceeds 20
entries, and each non-referenced entry is a member of `allFiles` whose
path case-insensitively contains some extracted keyword. -/
theorem filterRelevantFiles_spec (userInput : String) (referencedFiles allFiles : List String)
    (href : referencedFiles.Nodup) (hall : allFiles.Nodup) :
    (filterRelevantFiles userInput referencedFiles allFiles).Nodup ∧
    (filterRelevantFiles userInput referencedFiles allFiles).length ≤ 20 ∧
    (∃ rest, filterRelevantFiles userInput referencedFiles allFiles =
        referencedFiles.take 20 ++ rest ∧ rest.Sublist allFiles) ∧
    (∀ f ∈ filterRelevantFiles userInput referencedFiles allFiles, f ∉ referencedFiles →
      f ∈ allFiles ∧ ∃ k ∈ extractKeywords userInput,
        jsIncludes (jsToLower f) (jsToLower k) = true) := by
  simp only [filterRelevantFiles]
  refine ⟨?_, ?_, ?_, ?_⟩
  · refine List.Nodup.sublist (List.take_sublist _ _) ?_
    rw [List.nodup_append]
    refine ⟨href, List.Nodup.filter _ hall, ?_⟩
    intro a ha hmem
    rw [List.mem_filter] at hmem
    obtain ⟨-, hp⟩ := hmem
    rw [Bool.and_eq_true] at hp
    obtain ⟨hnc, -⟩ := hp
    rw [Bool.not_eq_true'] at hnc
    have hel : referencedFiles.elem a = true := List.elem_iff.mpr ha
    rw [show referencedFiles.contains a = referencedFiles.elem a from rfl, hel] at hnc
    cases hnc
  · simp [List.length_take]
  · refine ⟨(allFiles.filter _).take (20 - referencedFiles.length),
      List.take_append_eq_append_take, ?_⟩
    exact List.Sublist.trans (List.take_sublist _ _) (List.filter_sublist _)
  · intro f hf hnref
    have hf' := List.take_subset _ _ hf
    rcases List.mem_append.mp hf' with hf' | hf'
    · exact absurd hf' hnref
    · rw [List.mem_filter] at hf'
      obtain ⟨hmem, hp⟩ := hf'
      rw [Bool.and_eq_true] at hp
      obtain ⟨-, hany⟩ := hp
      rw [List.any_eq_true] at hany
      obtain ⟨k, hk, hinc⟩ := hany
      exact ⟨hmem, k, hk, hinc⟩

/-- Witness for C6 at concrete duplicate-free inputs. -/
theorem filterRelevantFiles_spec_witness :
    (filterRelevantFiles "auth stuff" ["main.ts"] ["auth.ts", "readme.md"]).Nodup ∧
    (filterRelevantFiles "auth stuff" ["main.ts"] ["auth.ts", "readme.md"]).length ≤ 20 ∧
    (∃ rest, filterRelevantFiles "auth stuff" ["main.ts"] ["auth.ts", "readme.md"] =
        (["main.ts"] : List String).take 20 ++ rest ∧ rest.Sublist ["auth.ts", "readme.md"]) ∧
    (∀ f ∈ filterRelevantFiles "auth stuff" ["main.ts"] ["auth.ts", "readme.md"],
      f ∉ (["main.ts"] : List String) →
      f ∈ (["auth.ts", "readme.md"] : List String) ∧ ∃ k ∈ extractKeywords "auth stuff",
        jsIncludes (jsToLower f) (jsToLower k) = true) :=
  filterRelevantFiles_spec "auth stuff" ["main.ts"] ["auth.ts", "readme.md"]
    (by decide) (by decide)

lemma head?_dropWhile_false {α : Type} (p : α → Bool) :
    ∀ (l : List α) (c : α), ((l.dropWhile p).head? = some c) → p c = false := by
  intro l
  induction l with
  | nil => intro c h; simp [List.dropWhile] at h
  | cons a t ih =>
    intro c h
    rw [List.dropWhile_cons] at h
    split at h
    · exact ih c h
    · simp at h
      subst h
      rename_i hpa
      exact Bool.not_eq_true _ ▸ eq_false_of_ne_true hpa

lemma jsTrimL_head (l : List Char) (c : Char) (h : (jsTrimL l).head? = some c) :
    isJsWs c = false := by
  rw [jsTrimL, List.head?_reverse] at h
  obtain ⟨t, ht⟩ := List.dropWhile_suffix (l := (l.dropWhile isJsWs).reverse) (p := isJsWs)
  rcases hd : (l.dropWhile isJsWs).reverse.dropWhile isJsWs with _ | ⟨x, xs⟩
  · rw [hd] at h; cases h
  · have hne : (l.dropWhile isJsWs).reverse.dropWhile isJsWs ≠ [] := by rw [hd]; simp
    have : ((l.dropWhile isJsWs).reverse).getLast? = some c := by
      rw [← ht, List.getLast?_append_of_ne_nil _ hne]
      exact h
    rw [List.getLast?_reverse] at this
    exact head?_dropWhile_false isJsWs l c this

lemma jsTrimL_getLast (l : List Char) (c : Char) (h : (jsTrimL l).getLast? = some c) :
    isJsWs c = false := by
  rw [jsTrimL, List.getLast?_reverse] at h
  exact head?_dropWhile_false isJsWs _ c h

/-- Claim C10 (amended): the cleanup shared by `createFile` and `modifyFile`
always trims first; when the trimmed content does not start with a triple
backtick the written content is exactly the trimmed content and never
begins or ends with whitespace; fence stripping applies exactly when the
trimmed content starts with a triple backtick, and may expose inner
whitespace. -/
theorem cleanContent_spec (content : String) :
    ((jsTrimL content.data).take 3 ≠ [btick, btick, btick] →
      cleanContent content = jsTrim content ∧
      (∀ c, (cleanContent content).data.head? = some c → isJsWs c = false) ∧
      (∀ c, (cleanContent content).data.getLast? = some c → isJsWs c = false)) ∧
    ((jsTrimL content.data).take 3 = [btick, btick, btick] →
      cleanContent content = String.mk (stripCloseFence (stripOpenFence (jsTrimL content.data)))) := by
  constructor
  · intro hne
    have hc : cleanContent content = String.mk (jsTrimL content.data) := by
      rw [cleanContent, if_neg hne]
    refine ⟨hc, ?_, ?_⟩
    · intro c h
      rw [hc] at h
      exact jsTrimL_head _ _ h
    · intro c h
      rw [hc] at h
      exact jsTrimL_getLast _ _ h
  · intro heq
    rw [cleanContent, if_pos heq]

/-- Witness for C10 at an unfenced content with surrounding whitespace. -/
theorem cleanContent_spec_witness :
    cleanContent "  hello " = jsTrim "  hello " ∧
    (∀ c, (cleanContent "  hello ").data.head? = some c → isJsWs c = false) ∧
    (∀ c, (cleanContent "  hello ").data.getLast? = some c → isJsWs c = false) :=
  (cleanContent_spec "  hello ").1 (by decide)

/-- Counterexample to C10 as stated: fenced model output whose first inner
line starts with a space is written to disk beginning with whitespace. -/
theorem cleanContent_ws_cex :
    (cleanContent "```\n x\n```").data.head? = some ' ' ∧ isJsWs ' ' = true :=
  ⟨rfl, rfl⟩

lemma takeWhile_append_all {p : Char → Bool} :
    ∀ (a b : List Char), (∀ c ∈ a, p c = true) → (∀ c, b.head? = some c → p c = false) →
      (a ++ b).takeWhile p = a ∧ (a ++ b).dropWhile p = b := by
  intro a
  induction a with
  | nil =>
    intro b _ hb
    rcases b with _ | ⟨x, xs⟩
    · exact ⟨rfl, rfl⟩
    · have hx : p x = false := hb x rfl
      constructor
      · simp [List.takeWhile_cons, hx]
      · simp [List.dropWhile_cons, hx]
  | cons c cs ih =>
    intro b ha hb
    have hc : p c = true := ha c (by simp)
    obtain ⟨h1, h2⟩ := ih b (fun d hd => ha d (by simp [hd])) hb
    constructor
    · simp [List.takeWhile_cons, hc, h1]
    · simp [List.dropWhile_cons, hc, h2]

lemma skipWs_cons {c : Char} {l : List Char} (h : isJsonWs c = false) :
    skipWs (c :: l) = c :: l := by
  simp [skipWs, List.dropWhile_cons, h]

lemma isDigitC_not_special {c : Char} (h : isDigitC c = true) :
    c ≠ '"' ∧ c ≠ '[' ∧ c ≠ lbrace ∧ c ≠ 't' ∧ c ≠ 'f' ∧ c ≠ 'n' ∧ c ≠ '-' ∧ c ≠ '.' ∧
    c ≠ ',' ∧ c ≠ ']' ∧ c ≠ rbrace ∧ c ≠ 'e' ∧ c ≠ 'E' ∧ c ≠ '+' ∧ isJsonWs c = false := by
  have hws : isJsonWs c = false := by
    rcases hw : isJsonWs c with _ | _
    · rfl
    · exfalso
      rw [isJsonWs] at hw
      simp only [Bool.or_eq_true, decide_eq_true_iff] at hw
      rcases hw with (((h' | h') | h') | h') <;> subst h' <;> exact absurd h (by decide)
  refine ⟨?_, ?_, ?_, ?_, ?_, ?_, ?_, ?_, ?_, ?_, ?_, ?_, ?_, ?_, hws⟩ <;>
    intro he <;> subst he <;> exact absurd h (by decide)

lemma digitChar_val {n : Nat} (h : n < 10) :
    digitVal (digitChar n) = n ∧ isDigitC (digitChar n) = true ∧
      (digitChar n = '0' ↔ n = 0) := by
  interval_cases n <;> exact ⟨by decide, by decide, by decide⟩

lemma natDigitsAux_spec : ∀ (fuel n : Nat), n < fuel → ∀ (acc : List Char),
    ∃ ds, natDigitsAux fuel n acc = ds ++ acc ∧ ds ≠ [] ∧ (∀ c ∈ ds, isDigitC c = true) ∧
      (∀ a0 : Nat, ds.foldl (fun a c => a * 10 + digitVal c) a0 = a0 * 10 ^ ds.length + n) ∧
      (ds.head? = some '0' → ds = ['0'] ∧ n = 0) := by
  intro fuel
  induction fuel using Nat.strong_induction_on with
  | _ fuel ih =>
    intro n hn acc
    rcases fuel with _ | f
    · omega
    rw [natDigitsAux]
    by_cases h10 : n < 10
    · rw [if_pos h10]
      obtain ⟨hv, hd, hz⟩ := digitChar_val h10
      refine ⟨[digitChar n], rfl, by simp, ?_, ?_, ?_⟩
      · intro c hc; rw [List.mem_singleton] at hc; subst hc; exact hd
      · intro a0; simp [List.foldl, hv, pow_one]
      · intro h0
        simp only [List.head?_cons, Option.some.injEq] at h0
        have hn0 : n = 0 := hz.mp h0
        subst hn0
        exact ⟨by rw [hz.mpr rfl], rfl⟩
    · rw [if_neg h10]
      have hpos : 0 < n := by omega
      have hle : n ≤ f := by omega
      have hdiv : n / 10 < f := lt_of_lt_of_le (Nat.div_lt_self hpos (by omega)) hle
      obtain ⟨ds', heq, hne, hdig, hval, hzero⟩ :=
        ih f (Nat.lt_succ_self f) (n / 10) hdiv (digitChar (n % 10) :: acc)
      obtain ⟨hv, hd, -⟩ := digitChar_val (Nat.mod_lt n (by omega))
      refine ⟨ds' ++ [digitChar (n % 10)], ?_, by simp, ?_, ?_, ?_⟩
      · rw [heq, List.append_assoc]; rfl
      · intro c hc
        rcases List.mem_append.mp hc with hc | hc
        · exact hdig c hc
        · rw [List.mem_singleton] at hc; subst hc; exact hd
      · intro a0
        rw [List.foldl_append, hval a0]
        simp only [List.foldl, hv, List.length_append, List.length_singleton]
        have hdm := Nat.div_add_mod n 10
        rw [pow_succ]
        set P := (10 : Nat) ^ ds'.length
        ring_nf
        omega
      · intro h0
        rcases hds : ds' with _ | ⟨x, xs⟩
        · exact absurd hds hne
        · rw [hds] at h0
          simp only [List.cons_append, List.head?_cons, Option.some.injEq] at h0
          have := hzero (by rw [hds, h0]; rfl)
          omega

lemma natDigits_spec (n : Nat) :
    natDigits n ≠ [] ∧ (∀ c ∈ natDigits n, isDigitC c = true) ∧
    digitsToNat (natDigits n) = n ∧
    ((natDigits n).head? = some '0' → natDigits n = ['0'] ∧ n = 0) := by
  obtain ⟨ds, heq, hne, hdig, hval, hz⟩ := natDigitsAux_spec (n + 1) n (Nat.lt_succ_self n) []
  rw [List.append_nil] at heq
  rw [natDigits, heq]
  refine ⟨hne, hdig, ?_, hz⟩
  have := hval 0
  simpa [digitsToNat] using this

lemma digitRun (n : Nat) (suffix : List Char)
    (hs : ∀ c, suffix.head? = some c → isDigitC c = false) :
    (natDigits n ++ suffix).takeWhile isDigitC = natDigits n ∧
    (natDigits n ++ suffix).dropWhile isDigitC = suffix :=
  takeWhile_append_all _ _ (natDigits_spec n).2.1 hs

lemma natDigits_nlz (n : Nat) :
    (decide (1 < (natDigits n).length) && decide ((natDigits n).head? = some '0')) = false := by
  by_cases hz : (natDigits n).head? = some '0'
  · obtain ⟨h1, -⟩ := (natDigits_spec n).2.2.2 hz
    rw [h1]
    simp
  · simp [hz]

lemma parseExp_none (m e0 : Int) (l : List Char)
    (h : ∀ c, l.head? = some c → c ≠ 'e' ∧ c ≠ 'E') :
    parseExp m e0 l = some ((m, e0), l) := by
  rcases l with _ | ⟨c, t⟩
  · rfl
  · obtain ⟨h1, h2⟩ := h c rfl
    simp [parseExp, h1, h2]

lemma parseExpTail_print (m e0 e : Int) (rest : List Char) (hrest : numOk rest) :
    parseExpTail m e0 (printInt e ++ rest) = some ((m, e0 + e), rest) := by
  have hb : ∀ c, rest.head? = some c → isDigitC c = false := fun c hc => (hrest c hc).1
  rw [printInt]
  by_cases he : e < 0
  · rw [if_pos he]
    obtain ⟨htake, hdrop⟩ := digitRun (-e).toNat rest hb
    rw [parseExpTail.eq_def]
    simp only [List.cons_append, if_true, if_neg (by decide : ¬('-' = '+'))]
    rw [htake, hdrop]
    have hne := (natDigits_spec (-e).toNat).1
    have hv := (natDigits_spec (-e).toNat).2.2.1
    rw [hv]
    rcases hd : natDigits (-e).toNat with _ | ⟨x, xs⟩
    · exact absurd hd hne
    · simp
      omega
  · rw [if_neg he]
    obtain ⟨htake, hdrop⟩ := digitRun e.toNat rest hb
    have hne := (natDigits_spec e.toNat).1
    have hv := (natDigits_spec e.toNat).2.2.1
    rcases hd : natDigits e.toNat with _ | ⟨x, xs⟩
    · exact absurd hd hne
    · have hxd : isDigitC x = true := (natDigits_spec e.toNat).2.1 x (by rw [hd]; simp)
      obtain ⟨-, -, -, -, -, -, hxm, -, -, -, -, -, -, hxp, -⟩ := isDigitC_not_special hxd
      rw [hd] at htake hdrop hv
      simp only [List.cons_append] at htake hdrop
      rw [parseExpTail.eq_def]
      simp only [List.cons_append, if_neg hxp, if_neg hxm]
      rw [htake, hdrop, hv]
      simp
      omega



lemma parseNumber_int (m e : Int) (suf rest : List Char)
    (hb : ∀ c, suf.head? = some c → isDigitC c = false ∧ c ≠ '.')
    (hexp : parseExp m 0 suf = some ((m, e), rest)) :
    parseNumber (printInt m ++ suf) = some ((m, e), rest) := by
  have hb1 : ∀ c, suf.head? = some c → isDigitC c = false := fun c hc => (hb c hc).1
  rw [printInt]
  by_cases hm : m < 0
  · rw [if_pos hm]
    obtain ⟨htake, hdrop⟩ := digitRun (-m).toNat suf hb1
    have hne := (natDigits_spec (-m).toNat).1
    have hv := (natDigits_spec (-m).toNat).2.2.1
    have hnlz := natDigits_nlz (-m).toNat
    rw [parseNumber.eq_def]
    simp only [List.cons_append, if_true, if_neg (by decide : ¬('-' = '+'))]
    rw [htake, hdrop, hv]
    rcases hd : natDigits (-m).toNat with _ | ⟨x, xs⟩
    · exact absurd hd hne
    · rw [hd] at hnlz
      simp only [List.isEmpty_cons, Bool.false_eq_true, if_false, hnlz]
      have hcast : ((-m).toNat : Int) = -m := Int.toNat_of_nonneg (by omega)
      rw [hcast]
      simp only [neg_neg]
      rcases hs : suf with _ | ⟨c, t⟩
      · rw [hs] at hexp; exact hexp
      · obtain ⟨-, hdot⟩ := hb c (by rw [hs]; rfl)
        simp only [if_neg hdot]
        rw [hs] at hexp; exact hexp
  · rw [if_neg hm]
    obtain ⟨htake, hdrop⟩ := digitRun m.toNat suf hb1
    have hne := (natDigits_spec m.toNat).1
    have hv := (natDigits_spec m.toNat).2.2.1
    have hnlz := natDigits_nlz m.toNat
    rcases hd : natDigits m.toNat with _ | ⟨x, xs⟩
    · exact absurd hd hne
    · have hxd : isDigitC x = true := (natDigits_spec m.toNat).2.1 x (by rw [hd]; simp)
      obtain ⟨-, -, -, -, -, -, hxm, -, -, -, -, -, -, -, -⟩ := isDigitC_not_special hxd
      rw [hd] at htake hdrop hv hnlz
      simp only [List.cons_append] at htake hdrop
      rw [parseNumber.eq_def]
      simp only [List.cons_append, if_neg hxm]
      rw [htake, hdrop, hv]
      simp only [List.isEmpty_cons, Bool.false_eq_true, if_false, hnlz]
      have hcast : (m.toNat : Int) = m := Int.toNat_of_nonneg (by omega)
      rw [hcast]
      rcases hs : suf with _ | ⟨c, t⟩
      · rw [hs] at hexp; exact hexp
      · obtain ⟨-, hdot⟩ := hb c (by rw [hs]; rfl)
        simp only [if_neg hdot]
        rw [hs] at hexp; exact hexp


lemma parseNumber_print (m e : Int) (rest : List Char) (hrest : numOk rest) :
    parseNumber (printNum m e ++ rest) = some ((m, e), rest) := by
  rw [printNum]
  by_cases he : e = 0
  · subst he
    rw [if_pos rfl]
    refine parseNumber_int m 0 rest rest (fun c hc => ⟨(hrest c hc).1, (hrest c hc).2.1⟩) ?_
    exact parseExp_none m 0 rest (fun c hc => ⟨(hrest c hc).2.2.1, (hrest c hc).2.2.2⟩)
  · rw [if_neg he, List.append_assoc, List.cons_append]
    refine parseNumber_int m e ('e' :: (printInt e ++ rest)) rest ?_ ?_
    · intro c hc
      simp only [List.head?_cons, Option.some.injEq] at hc
      subst hc
      exact ⟨by decide, by decide⟩
    · rw [parseExp]
      simp only [if_pos (by decide : ('e' = 'e' || 'e' = 'E') = true)]
      have := parseExpTail_print m 0 e rest hrest
      rw [this]
      norm_num

lemma hexRound (n : Nat) (h : n < 16) : hexDigitVal (hexOutDigit n) = some n := by
  interval_cases n <;> decide

lemma escapeChar_length_pos (c : Char) : 1 ≤ (escapeChar c).length := by
  rw [escapeChar]
  split_ifs <;> simp

lemma escapeList_length_ge (cs : List Char) : cs.length ≤ (escapeList cs).length := by
  induction cs with
  | nil => simp [escapeList]
  | cons c cs ih =>
    rw [escapeList, List.length_append, List.length_cons]
    have := escapeChar_length_pos c
    omega

lemma parseStringBodyF_backslash (fuel : Nat) (x c : Char) (hx : x ≠ 'u')
    (hesc : escChar x = some c) (t : List Char) :
    parseStringBodyF (fuel + 1) ('\\' :: x :: t) =
      (parseStringBodyF fuel t).map (fun pr => (c :: pr.1, pr.2)) := by
  rw [parseStringBodyF]
  simp [hx, hesc]

lemma parseStringBodyF_escape : ∀ (cs : List Char) (fuel : Nat) (r : List Char),
    cs.length + 1 ≤ fuel →
    parseStringBodyF fuel (escapeList cs ++ '"' :: r) = some (cs, r) := by
  intro cs
  induction cs with
  | nil =>
    intro fuel r hf
    rcases fuel with _ | f
    · omega
    rw [escapeList, List.nil_append]
    simp only [parseStringBodyF, if_pos rfl, if_true]
  | cons c cs ih =>
    intro fuel r hf
    rcases fuel with _ | f
    · omega
    have hf' : cs.length + 1 ≤ f := by
      rw [List.length_cons] at hf
      omega
    rw [escapeList, List.append_assoc]
    by_cases h1 : c = '"'
    · subst h1
      rw [show escapeChar '"' = ['\\', '"'] from by decide]
      rw [show (['\\', '"'] : List Char) ++ (escapeList cs ++ '"' :: r) =
        '\\' :: '"' :: (escapeList cs ++ '"' :: r) from rfl]
      rw [parseStringBodyF_backslash f '"' '"' (by decide) (by decide), ih f r hf']
      rfl
    · by_cases h2 : c = '\\'
      · subst h2
        rw [show escapeChar '\\' = ['\\', '\\'] from by decide]
        rw [show (['\\', '\\'] : List Char) ++ (escapeList cs ++ '"' :: r) =
          '\\' :: '\\' :: (escapeList cs ++ '"' :: r) from rfl]
        rw [parseStringBodyF_backslash f '\\' '\\' (by decide) (by decide), ih f r hf']
        rfl
      · by_cases h3 : c = '\n'
        · subst h3
          rw [show escapeChar '\n' = ['\\', 'n'] from by decide]
          rw [show (['\\', 'n'] : List Char) ++ (escapeList cs ++ '"' :: r) =
            '\\' :: 'n' :: (escapeList cs ++ '"' :: r) from rfl]
          rw [parseStringBodyF_backslash f 'n' '\n' (by decide) (by decide), ih f r hf']
          rfl
        · by_cases h4 : c = '\r'
          · subst h4
            rw [show escapeChar '\r' = ['\\', 'r'] from by decide]
            rw [show (['\\', 'r'] : List Char) ++ (escapeList cs ++ '"' :: r) =
              '\\' :: 'r' :: (escapeList cs ++ '"' :: r) from rfl]
            rw [parseStringBodyF_backslash f 'r' '\r' (by decide) (by decide), ih f r hf']
            rfl
          · by_cases h5 : c = '\t'
            · subst h5
              rw [show escapeChar '\t' = ['\\', 't'] from by decide]
              rw [show (['\\', 't'] : List Char) ++ (escapeList cs ++ '"' :: r) =
                '\\' :: 't' :: (escapeList cs ++ '"' :: r) from rfl]
              rw [parseStringBodyF_backslash f 't' '\t' (by decide) (by decide), ih f r hf']
              rfl
            · by_cases h6 : c = Char.ofNat 8
              · subst h6
                rw [show escapeChar (Char.ofNat 8) = ['\\', 'b'] from by decide]
                rw [show (['\\', 'b'] : List Char) ++ (escapeList cs ++ '"' :: r) =
                  '\\' :: 'b' :: (escapeList cs ++ '"' :: r) from rfl]
                rw [parseStringBodyF_backslash f 'b' (Char.ofNat 8) (by decide) (by decide),
                  ih f r hf']
                rfl
              · by_cases h7 : c = Char.ofNat 12
                · subst h7
                  rw [show escapeChar (Char.ofNat 12) = ['\\', 'f'] from by decide]
                  rw [show (['\\', 'f'] : List Char) ++ (escapeList cs ++ '"' :: r) =
                    '\\' :: 'f' :: (escapeList cs ++ '"' :: r) from rfl]
                  rw [parseStringBodyF_backslash f 'f' (Char.ofNat 12) (by decide) (by decide),
                    ih f r hf']
                  rfl
                · by_cases h8 : c.toNat < 32
                  · rw [escapeChar, if_neg h1, if_neg h2, if_neg h3, if_neg h4, if_neg h5,
                      if_neg h6, if_neg h7, if_pos h8]
                    rw [show (['\\', 'u', '0', '0', hexOutDigit (c.toNat / 16),
                        hexOutDigit (c.toNat % 16)] : List Char) ++ (escapeList cs ++ '"' :: r) =
                      '\\' :: 'u' :: '0' :: '0' :: hexOutDigit (c.toNat / 16) ::
                        hexOutDigit (c.toNat % 16) :: (escapeList cs ++ '"' :: r) from rfl]
                    simp only [parseStringBodyF,
                      if_neg (by decide : ¬(('\\' : Char) = '"')), if_pos rfl]
                    have hu : parseU ('0' :: '0' :: hexOutDigit (c.toNat / 16) ::
                        hexOutDigit (c.toNat % 16) :: (escapeList cs ++ '"' :: r)) =
                        some (c, escapeList cs ++ '"' :: r) := by
                      rw [parseU, hex4]
                      rw [show hexDigitVal '0' = some 0 from by decide]
                      rw [hexRound (c.toNat / 16) (by omega), hexRound (c.toNat % 16) (by omega)]
                      have hv : 0 * 4096 + 0 * 256 + c.toNat / 16 * 16 + c.toNat % 16 =
                          c.toNat := by omega
                      simp only [hv]
                      rw [if_neg (by simp; omega), if_neg (by simp; omega)]
                      rw [Char.ofNat_toNat]
                    rw [hu]
                    simp [ih f r hf']
                  · rw [escapeChar, if_neg h1, if_neg h2, if_neg h3, if_neg h4, if_neg h5,
                      if_neg h6, if_neg h7, if_neg h8]
                    rw [show ([c] : List Char) ++ (escapeList cs ++ '"' :: r) =
                      c :: (escapeList cs ++ '"' :: r) from rfl]
                    simp only [parseStringBodyF, if_neg h1, if_neg h2, if_neg h8,
                      ih f r hf']
                    rfl

lemma parseStringBody_escape (cs : List Char) (r : List Char) :
    parseStringBody (escapeList cs ++ '"' :: r) = some (cs, r) := by
  rw [parseStringBody]
  apply parseStringBodyF_escape
  have := escapeList_length_ge cs
  rw [List.length_append, List.length_cons]
  omega

lemma stringMk_data (s : String) : String.mk s.data = s := rfl

lemma printString_length (s : String) : 2 ≤ (printString s).length := by
  rw [printString]
  simp

lemma printJson_length_pos (j : Json) : 1 ≤ (printJson j).length := by
  cases j with
  | null => simp [printJson]
  | bool b => cases b <;> simp [printJson]
  | num m e =>
    simp only [printJson]
    rw [printNum]
    by_cases he : e = 0
    · rw [if_pos he, printInt]
      by_cases hm : m < 0
      · rw [if_pos hm]; simp
      · rw [if_neg hm]
        have := (natDigits_spec m.toNat).1
        have := List.length_pos.mpr this
        omega
    · rw [if_neg he, printInt]
      by_cases hm : m < 0
      · rw [if_pos hm]; simp
      · rw [if_neg hm]
        have := (natDigits_spec m.toNat).1
        have h1 := List.length_pos.mpr this
        simp only [List.length_append, List.length_cons]
        omega
  | str s =>
    have := printString_length s
    simp only [printJson]
    omega
  | arr es => simp [printJson]
  | obj ms => simp [printJson]

lemma printElems_length_pos (L : List Json) (h : L ≠ []) : 1 ≤ (printElems L).length := by
  rcases L with _ | ⟨x, xs⟩
  · exact absurd rfl h
  rcases xs with _ | ⟨y, ys⟩
  · simp only [printElems]
    exact printJson_length_pos x
  · simp only [printElems, List.length_append, List.length_cons]
    have := printJson_length_pos x
    omega

lemma printMembers_length_pos (M : List (String × Json)) (h : M ≠ []) :
    1 ≤ (printMembers M).length := by
  rcases M with _ | ⟨⟨k, v⟩, ms⟩
  · exact absurd rfl h
  rcases ms with _ | ⟨m, t⟩
  · simp only [printMembers, List.length_append, List.length_cons]
    omega
  · simp only [printMembers, List.length_append, List.length_cons]
    omega

lemma printNum_head (m e : Int) :
    ∃ c t, printNum m e = c :: t ∧ (isDigitC c = true ∨ c = '-') := by
  rw [printNum, printInt]
  by_cases hm : m < 0
  · by_cases he : e = 0 <;> simp [he, hm] <;> exact Or.inr rfl
  · have hne := (natDigits_spec m.toNat).1
    have hdg := (natDigits_spec m.toNat).2.1
    rcases hd : natDigits m.toNat with _ | ⟨x, xs⟩
    · exact absurd hd hne
    · have hx : isDigitC x = true := hdg x (by rw [hd]; simp)
      by_cases he : e = 0
      · exact ⟨x, xs, by simp [he, hm, hd], Or.inl hx⟩
      · exact ⟨x, xs ++ 'e' :: printInt e, by simp [he, hm, hd], Or.inl hx⟩

lemma printJson_head (j : Json) :
    ∃ c t, printJson j = c :: t ∧ isJsonWs c = false ∧ c ≠ ']' ∧ c ≠ rbrace ∧ c ≠ ',' := by
  cases j with
  | null => exact ⟨'n', ['u', 'l', 'l'], by simp [printJson], by decide, by decide, by decide, by decide⟩
  | bool b =>
    cases b
    · exact ⟨'f', ['a', 'l', 's', 'e'], by simp [printJson], by decide, by decide, by decide, by decide⟩
    · exact ⟨'t', ['r', 'u', 'e'], by simp [printJson], by decide, by decide, by decide, by decide⟩
  | num m e =>
    obtain ⟨c, t, heq, hc⟩ := printNum_head m e
    refine ⟨c, t, by simp [printJson, heq], ?_, ?_, ?_, ?_⟩ <;> rcases hc with hc | hc
    · exact (isDigitC_not_special hc).2.2.2.2.2.2.2.2.2.2.2.2.2.2
    · subst hc; decide
    · exact (isDigitC_not_special hc).2.2.2.2.2.2.2.2.2.1
    · subst hc; decide
    · exact (isDigitC_not_special hc).2.2.2.2.2.2.2.2.2.2.1
    · subst hc; decide
    · exact (isDigitC_not_special hc).2.2.2.2.2.2.2.2.1
    · subst hc; decide
  | str s =>
    refine ⟨'"', escapeList s.data ++ ['"'], ?_, by decide, by decide, by decide, by decide⟩
    simp [printJson, printString]
  | arr es =>
    exact ⟨'[', printElems es ++ [']'], by simp [printJson], by decide, by decide, by decide,
      by decide⟩
  | obj ms =>
    exact ⟨lbrace, printMembers ms ++ [rbrace], by simp [printJson], by decide, by decide,
      by decide, by decide⟩

lemma numOk_cons (c : Char) (l : List Char)
    (h : isDigitC c = false ∧ c ≠ '.' ∧ c ≠ 'e' ∧ c ≠ 'E') : numOk (c :: l) := by
  intro d hd
  simp only [List.head?_cons, Option.some.injEq] at hd
  subst hd
  exact h


lemma jsonP_ok : ∀ fuel : Nat,
    (∀ j rest, (printJson j).length + 1 ≤ fuel → numOk rest →
      (jsonP fuel).value (printJson j ++ rest) = some (j, rest)) ∧
    (∀ L rest, L ≠ [] → (printElems L).length + 2 ≤ fuel →
      (jsonP fuel).elems (printElems L ++ ']' :: rest) = some (L, rest)) ∧
    (∀ M rest, M ≠ [] → (printMembers M).length + 2 ≤ fuel →
      (jsonP fuel).members (printMembers M ++ rbrace :: rest) = some (M, rest)) := by
  intro fuel
  induction fuel using Nat.strong_induction_on with
  | _ fuel ih =>
  rcases fuel with _ | f
  · refine ⟨fun j rest hb _ => ?_, fun L rest hL hb => ?_, fun M rest hM hb => ?_⟩ <;> omega
  obtain ⟨ihv, ihe, ihm⟩ := ih f (Nat.lt_succ_self f)
  refine ⟨?_, ?_, ?_⟩
  · -- value
    intro j rest hbound hrest
    show pValue (jsonP f) (printJson j ++ rest) = some (j, rest)
    cases j with
    | null =>
      rw [show printJson Json.null = ['n', 'u', 'l', 'l'] from by simp [printJson]]
      rw [pValue]
      simp only [List.cons_append, List.nil_append]
      rw [skipWs_cons (by decide)]
      simp [lbrace]
    | bool b =>
      cases b
      · rw [show printJson (Json.bool false) = ['f', 'a', 'l', 's', 'e'] from by
          simp [printJson]]
        rw [pValue]
        simp only [List.cons_append, List.nil_append]
        rw [skipWs_cons (by decide)]
        simp [lbrace]
      · rw [show printJson (Json.bool true) = ['t', 'r', 'u', 'e'] from by simp [printJson]]
        rw [pValue]
        simp only [List.cons_append, List.nil_append]
        rw [skipWs_cons (by decide)]
        simp [lbrace]
    | num m e =>
      obtain ⟨c0, t0, hpn, hc0⟩ := printNum_head m e
      have hfacts : c0 ≠ '"' ∧ c0 ≠ '[' ∧ c0 ≠ lbrace ∧ c0 ≠ 't' ∧ c0 ≠ 'f' ∧ c0 ≠ 'n' ∧
          isJsonWs c0 = false := by
        rcases hc0 with hd | hd
        · obtain ⟨a1, a2, a3, a4, a5, a6, -, -, -, -, -, -, -, -, a15⟩ := isDigitC_not_special hd
          exact ⟨a1, a2, a3, a4, a5, a6, a15⟩
        · subst hd
          exact ⟨by decide, by decide, by decide, by decide, by decide, by decide, by decide⟩
      rw [show printJson (Json.num m e) = printNum m e from by simp [printJson], hpn]
      rw [pValue]
      simp only [List.cons_append]
      rw [skipWs_cons hfacts.2.2.2.2.2.2]
      simp only [if_neg hfacts.1, if_neg hfacts.2.1, if_neg hfacts.2.2.1, if_neg hfacts.2.2.2.1,
        if_neg hfacts.2.2.2.2.1, if_neg hfacts.2.2.2.2.2.1]
      rw [show c0 :: (t0 ++ rest) = (c0 :: t0) ++ rest from rfl, ← hpn]
      rw [parseNumber_print m e rest hrest]
      rfl
    | str s =>
      rw [show printJson (Json.str s) = printString s from by simp [printJson], printString]
      simp only [List.cons_append, List.append_assoc, List.nil_append]
      rw [pValue]
      rw [skipWs_cons (show isJsonWs '"' = false from by decide)]
      simp only [if_true, if_pos (rfl : ('"' : Char) = '"'), parseStringBody_escape s.data rest,
        Option.map_some', stringMk_data]
    | arr es =>
      rcases es with _ | ⟨x, xs⟩
      · rw [show printJson (Json.arr []) = ['[', ']'] from by simp [printJson, printElems]]
        rw [pValue]
        simp only [List.cons_append, List.nil_append]
        rw [skipWs_cons (show isJsonWs '[' = false from by decide)]
        simp only [if_true, if_neg (by decide : ¬(('[' : Char) = '"')),
          if_pos (rfl : ('[' : Char) = '['), skipWs_cons (show isJsonWs ']' = false from by decide),
          if_pos (rfl : (']' : Char) = ']')]
      · rw [show printJson (Json.arr (x :: xs)) = '[' :: (printElems (x :: xs) ++ [']']) from by
          simp [printJson]]
        simp only [List.cons_append, List.append_assoc, List.nil_append]
        rw [pValue]
        rw [skipWs_cons (show isJsonWs '[' = false from by decide)]
        simp only [if_true, if_neg (by decide : ¬(('[' : Char) = '"')),
          if_pos (rfl : ('[' : Char) = '[')]
        obtain ⟨cx, tx, hx, hxw, hxne, -, -⟩ := printJson_head x
        have hdr : ∃ r2, printElems (x :: xs) ++ ']' :: rest = cx :: r2 := by
          rcases xs with _ | ⟨y, ys⟩
          · simp only [printElems]
            rw [hx]
            exact ⟨tx ++ ']' :: rest, by simp⟩
          · simp only [printElems]
            rw [hx]
            exact ⟨(tx ++ ',' :: printElems (y :: ys)) ++ ']' :: rest, by simp⟩
        obtain ⟨r2, hdr⟩ := hdr
        rw [hdr, skipWs_cons hxw]
        simp only [if_neg hxne]
        rw [← hdr]
        have hb2 : (printElems (x :: xs)).length + 2 ≤ f := by
          simp only [printJson, List.length_cons, List.length_append,
            List.length_singleton] at hbound
          omega
        rw [ihe (x :: xs) rest (by simp) hb2]
        rfl
    | obj ms =>
      rcases ms with _ | ⟨⟨k, v⟩, ms⟩
      · rw [show printJson (Json.obj []) = [lbrace, rbrace] from by
          simp [printJson, printMembers]]
        rw [pValue]
        simp only [List.cons_append, List.nil_append]
        rw [skipWs_cons (show isJsonWs lbrace = false from by decide)]
        simp only [if_true, if_neg (by decide : ¬(lbrace = '"')), if_neg (by decide : ¬(lbrace = '[')),
          if_pos (rfl : lbrace = lbrace),
          skipWs_cons (show isJsonWs rbrace = false from by decide),
          if_pos (rfl : rbrace = rbrace)]
      · rw [show printJson (Json.obj ((k, v) :: ms)) =
            lbrace :: (printMembers ((k, v) :: ms) ++ [rbrace]) from by simp [printJson]]
        simp only [List.cons_append, List.append_assoc, List.nil_append]
        rw [pValue]
        rw [skipWs_cons (show isJsonWs lbrace = false from by decide)]
        simp only [if_true, if_neg (by decide : ¬(lbrace = '"')), if_neg (by decide : ¬(lbrace = '[')),
          if_pos (rfl : lbrace = lbrace)]
        have hdr : ∃ r2, printMembers ((k, v) :: ms) ++ rbrace :: rest = '"' :: r2 := by
          rcases ms with _ | ⟨m, t⟩
          · simp only [printMembers, printString]
            exact ⟨escapeList k.data ++ '"' :: ':' :: (printJson v ++ rbrace :: rest), by simp⟩
          · simp only [printMembers, printString]
            exact ⟨escapeList k.data ++ '"' :: ':' ::
              (printJson v ++ ',' :: (printMembers (m :: t) ++ rbrace :: rest)), by simp⟩
        obtain ⟨r2, hdr⟩ := hdr
        rw [hdr, skipWs_cons (show isJsonWs '"' = false from by decide)]
        simp only [if_neg (by decide : ¬(('"' : Char) = rbrace))]
        rw [← hdr]
        have hb2 : (printMembers ((k, v) :: ms)).length + 2 ≤ f := by
          simp only [printJson, List.length_cons, List.length_append,
            List.length_singleton] at hbound
          omega
        rw [ihm ((k, v) :: ms) rest (by simp) hb2]
        rfl
  · -- elems
    intro L rest hL hbound
    show pElems (jsonP f) (printElems L ++ ']' :: rest) = some (L, rest)
    rcases L with _ | ⟨x, xs⟩
    · exact absurd rfl hL
    rcases xs with _ | ⟨y, ys⟩
    · simp only [printElems]
      have hval : (jsonP f).value (printJson x ++ ']' :: rest) = some (x, ']' :: rest) := by
        refine ihv x (']' :: rest) ?_ (numOk_cons _ _ (by decide))
        simp only [printElems] at hbound
        omega
      rw [pElems, hval]
      simp only [if_true, skipWs_cons (show isJsonWs ']' = false from by decide),
        if_neg (by decide : ¬((']' : Char) = ',')), if_pos (rfl : (']' : Char) = ']')]
    · simp only [printElems]
      simp only [List.cons_append, List.append_assoc]
      have hval : (jsonP f).value
          (printJson x ++ ',' :: (printElems (y :: ys) ++ ']' :: rest)) =
            some (x, ',' :: (printElems (y :: ys) ++ ']' :: rest)) := by
        refine ihv x _ ?_ (numOk_cons _ _ (by decide))
        simp only [printElems, List.length_append, List.length_cons] at hbound
        have := printElems_length_pos (y :: ys) (by simp)
        omega
      rw [pElems, hval]
      simp only [if_true, skipWs_cons (show isJsonWs ',' = false from by decide),
        if_pos (rfl : (',' : Char) = ',')]
      have helems : (jsonP f).elems (printElems (y :: ys) ++ ']' :: rest) =
          some (y :: ys, rest) := by
        refine ihe (y :: ys) rest (by simp) ?_
        simp only [printElems, List.length_append, List.length_cons] at hbound
        have := printJson_length_pos x
        omega
      simp only [helems, Option.map_some']
  · -- members
    intro M rest hM hbound
    show pMembers (jsonP f) (printMembers M ++ rbrace :: rest) = some (M, rest)
    rcases M with _ | ⟨⟨k, v⟩, ms⟩
    · exact absurd rfl hM
    rcases ms with _ | ⟨⟨k2, v2⟩, ms⟩
    · simp only [printMembers, printString]
      simp only [List.cons_append, List.append_assoc, List.nil_append]
      rw [pMembers]
      rw [skipWs_cons (show isJsonWs '"' = false from by decide)]
      have hval : (jsonP f).value (printJson v ++ rbrace :: rest) =
          some (v, rbrace :: rest) := by
        refine ihv v _ ?_ (numOk_cons _ _ (by decide))
        simp only [printMembers, printString, List.length_append, List.length_cons] at hbound
        omega
      simp only [if_true, if_pos (rfl : ('"' : Char) = '"'),
        parseStringBody_escape k.data (':' :: (printJson v ++ rbrace :: rest)),
        skipWs_cons (show isJsonWs ':' = false from by decide),
        if_pos (rfl : (':' : Char) = ':'), hval,
        skipWs_cons (show isJsonWs rbrace = false from by decide),
        if_neg (by decide : ¬(rbrace = ',')), if_pos (rfl : rbrace = rbrace), stringMk_data]
    · simp only [printMembers, printString]
      simp only [List.cons_append, List.append_assoc, List.nil_append]
      rw [pMembers]
      rw [skipWs_cons (show isJsonWs '"' = false from by decide)]
      have hval : (jsonP f).value
          (printJson v ++ ',' :: (printMembers ((k2, v2) :: ms) ++ rbrace :: rest)) =
            some (v, ',' :: (printMembers ((k2, v2) :: ms) ++ rbrace :: rest)) := by
        refine ihv v _ ?_ (numOk_cons _ _ (by decide))
        simp only [printMembers, printString, List.length_append, List.length_cons] at hbound
        have := printMembers_length_pos ((k2, v2) :: ms) (by simp)
        omega
      have hmem : (jsonP f).members (printMembers ((k2, v2) :: ms) ++ rbrace :: rest) =
          some ((k2, v2) :: ms, rest) := by
        refine ihm ((k2, v2) :: ms) rest (by simp) ?_
        simp only [printMembers, printString, List.length_append, List.length_cons] at hbound
        have := printJson_length_pos v
        omega
      simp only [if_true, if_pos (rfl : ('"' : Char) = '"'),
        parseStringBody_escape k.data
          (':' :: (printJson v ++ ',' :: (printMembers ((k2, v2) :: ms) ++ rbrace :: rest))),
        skipWs_cons (show isJsonWs ':' = false from by decide),
        if_pos (rfl : (':' : Char) = ':'), hval,
        skipWs_cons (show isJsonWs ',' = false from by decide),
        if_pos (rfl : (',' : Char) = ','), hmem, Option.map_some', stringMk_data]

lemma numOk_nil : numOk [] := by
  intro c hc
  simp at hc

lemma jsonParse_print (j : Json) : jsonParse (jsonStringify j) = some j := by
  have hval := (jsonP_ok (2 * (printJson j).length + 2)).1 j []
    (by have := printJson_length_pos j; omega) numOk_nil
  rw [List.append_nil] at hval
  rw [jsonParse]
  rw [show (jsonStringify j).data = printJson j from rfl]
  rw [hval]
  simp [skipWs]

lemma extractJsonSpan_print_obj (M : List (String × Json)) :
    extractJsonSpan (printJson (Json.obj M)) = some (printJson (Json.obj M)) := by
  have hshape : printJson (Json.obj M) = lbrace :: (printMembers M ++ [rbrace]) := by
    simp [printJson]
  rw [extractJsonSpan, hshape]
  have h1 : (lbrace :: (printMembers M ++ [rbrace])).dropWhile (fun c => !(c = lbrace)) =
      lbrace :: (printMembers M ++ [rbrace]) := by
    rw [List.dropWhile_cons]
    simp
  have hrev : (lbrace :: (printMembers M ++ [rbrace])).reverse =
      rbrace :: ((printMembers M).reverse ++ [lbrace]) := by
    simp
  have h2 : (lbrace :: (printMembers M ++ [rbrace])).reverse.dropWhile (fun c => !(c = rbrace)) =
      (lbrace :: (printMembers M ++ [rbrace])).reverse := by
    rw [hrev, List.dropWhile_cons]
    simp
  simp only [h1, h2, List.reverse_reverse]
  simp

lemma getField_planToJson_summary (p : ExecutionPlan) :
    getField (planToJson p) "summary" = some (Json.str p.summary) := by
  rw [planToJson, getField]
  simp only [List.foldl_cons, List.foldl_nil]
  simp

lemma getField_planToJson_steps (p : ExecutionPlan) :
    getField (planToJson p) "steps" = some (Json.arr (p.steps.map planStepToJson)) := by
  rw [planToJson, getField]
  simp only [List.foldl_cons, List.foldl_nil]
  simp

lemma parsePlanResponse_print (p : ExecutionPlan) (hs : p.summary ≠ "") :
    parsePlanResponse (jsonStringify (planToJson p)) = some (planToJson p) := by
  rw [parsePlanResponse]
  rw [show (jsonStringify (planToJson p)).data = printJson (planToJson p) from rfl]
  have hspan : extractJsonSpan (printJson (planToJson p)) =
      some (printJson (planToJson p)) := by
    rw [planToJson]
    exact extractJsonSpan_print_obj _
  rw [hspan]
  have hjp : jsonParse (String.mk (printJson (planToJson p))) = some (planToJson p) :=
    jsonParse_print (planToJson p)
  have h1 : truthyO (some (Json.str p.summary)) = true := by
    simp [truthyO, truthy, hs]
  have h2 : truthyO (some (Json.arr (p.steps.map planStepToJson))) = true := rfl
  have h3 : isArrO (some (Json.arr (p.steps.map planStepToJson))) = true := rfl
  simp only [hjp, getField_planToJson_summary, getField_planToJson_steps, h1, h2, h3]
  simp

lemma json_str_injective : Function.Injective Json.str := by
  intro a b h
  injection h

lemma planStepToJson_inj : Function.Injective planStepToJson := by
  intro a b h
  rcases a with ⟨sa, aa, da, fa, ra⟩
  rcases b with ⟨sb, ab, db, fb, rb⟩
  rcases fa with _ | fa <;> rcases fb with _ | fb <;>
    simp only [planStepToJson, Json.obj.injEq, List.nil_append, List.cons_append,
      List.append_nil, List.cons.injEq, Prod.mk.injEq, Json.num.injEq, Json.str.injEq,
      Json.arr.injEq, and_true, true_and] at h
  · obtain ⟨h1, h2, h3, h4⟩ := h
    simp [h1, h2, h3, h4]
  · simp at h
  · simp at h
  · obtain ⟨h1, h2, h3, h4, h5⟩ := h
    have hf : fa = fb := List.map_injective_iff.mpr json_str_injective h4
    simp [h1, h2, h3, h5, hf]

lemma planToJson_inj : Function.Injective planToJson := by
  intro a b h
  rcases a with ⟨sa, ta, ca, pa, ra⟩
  rcases b with ⟨sb, tb, cb, pb, rb⟩
  simp only [planToJson, Json.obj.injEq, List.cons.injEq, Prod.mk.injEq, Json.str.injEq,
    Json.arr.injEq, and_true, true_and] at h
  obtain ⟨h1, h2, h3, h4, h5⟩ := h
  have ht : ta = tb := List.map_injective_iff.mpr planStepToJson_inj h2
  have hp : pa = pb := List.map_injective_iff.mpr json_str_injective h4
  have hr : ra = rb := List.map_injective_iff.mpr json_str_injective h5
  simp [h1, h3, ht, hp, hr]

lemma truthyO_of_isArrO (x : Option Json) (h : isArrO x = true) : truthyO x = true := by
  rcases x with _ | j
  · cases h
  · rcases j <;> first | rfl | cases h

/-- Claim C8: parsing the JSON serialization of any wire-format plan (truthy
summary string, steps an array) yields exactly the serialized value back,
and the serialization is injective, so the original plan is reproduced
exactly. -/
theorem plan_roundtrip (p : ExecutionPlan) (hs : p.summary ≠ "") :
    parsePlanResponse (jsonStringify (planToJson p)) = some (planToJson p) ∧
    ∀ q : ExecutionPlan, planToJson q = planToJson p → q = p :=
  ⟨parsePlanResponse_print p hs, fun _ hq => planToJson_inj hq⟩

/-- Witness for C8 at the sample three-step plan. -/
theorem plan_roundtrip_witness :
    parsePlanResponse (jsonStringify (planToJson samplePlan3)) =
      some (planToJson samplePlan3) :=
  (plan_roundtrip samplePlan3 (by decide)).1

/-- Claim C2: `parsePlanResponse` extracts the first-brace-to-last-brace
span, parses it, and returns the plan exactly when `summary` is truthy and
`steps` is an array, returning `none` in every failure mode; in particular
it recovers the plan from fenced prose, and rejects plain text and a plan
without `summary`. -/
theorem parsePlanResponse_spec :
    (∀ s : String, parsePlanResponse s =
      match extractJsonSpan s.data with
      | none => none
      | some span =>
        match jsonParse (String.mk span) with
        | none => none
        | some plan =>
          if truthyO (getField plan "summary") && isArrO (getField plan "steps") then some plan
          else none) ∧
    (∀ s j, parsePlanResponse s = some j →
      truthyO (getField j "summary") = true ∧ isArrO (getField j "steps") = true) ∧
    parsePlanResponse "Here is the plan:\n```json\n\x7b\"summary\":\"x\",\"steps\":[]\x7d\n```" =
      some (Json.obj [("summary", Json.str "x"), ("steps", Json.arr [])]) ∧
    parsePlanResponse "not json at all" = none ∧
    parsePlanResponse "\x7b\"steps\":[]\x7d" = none := by
  have validateEq : ∀ plan : Json,
      (if (!truthyO (getField plan "summary") || !truthyO (getField plan "steps") ||
          !isArrO (getField plan "steps")) = true then (none : Option Json) else some plan) =
      (if (truthyO (getField plan "summary") && isArrO (getField plan "steps")) = true
       then some plan else none) := by
    intro plan
    have him := truthyO_of_isArrO (getField plan "steps")
    cases ha : truthyO (getField plan "summary") <;>
      cases hb : truthyO (getField plan "steps") <;>
      cases hc : isArrO (getField plan "steps") <;>
      simp_all
  refine ⟨?_, ?_, rfl, rfl, rfl⟩
  · intro s
    rw [parsePlanResponse]
    simp only [validateEq]
  · intro s j h
    rw [parsePlanResponse] at h
    rcases hsp : extractJsonSpan s.data with _ | span <;> rw [hsp] at h
    · simp at h
    · rcases hpp : jsonParse (String.mk span) with _ | plan <;> simp only [hpp] at h
      · simp at h
      · split at h
        · cases h
        · rename_i hcond
          simp only [Bool.or_eq_true, Bool.not_eq_true', not_or] at hcond
          obtain ⟨⟨h1, -⟩, h3⟩ := hcond
          simp only [Option.some.injEq] at h
          subst h
          exact ⟨by simp [h1], by simp [h3]⟩

/-- Witness for C2: the validation facts at the recovered fenced plan. -/
theorem parsePlanResponse_spec_witness :
    truthyO (getField (Json.obj [("summary", Json.str "x"), ("steps", Json.arr [])])
      "summary") = true ∧
    isArrO (getField (Json.obj [("summary", Json.str "x"), ("steps", Json.arr [])])
      "steps") = true :=
  parsePlanResponse_spec.2.1 "Here is the plan:\n```json\n\x7b\"summary\":\"x\",\"steps\":[]\x7d\n```"
    (Json.obj [("summary", Json.str "x"), ("steps", Json.arr [])]) rfl

end TCA
